import Mathlib

/-!
Verification of the attribute (de)serialization layer of `pynamodb/attributes.py`
(the map/list/set codecs, the type dispatcher `get_pynamo_type` and the wire
decoder `get_python_type`).

Modelling conventions:
* Python values are shallowly embedded as the inductive `PyValue`.  Python
  dictionaries are modelled as association lists in iteration order (a Python
  dict has no duplicate keys; where that matters theorems carry a no-duplicate
  hypothesis).  Python `bool` is a separate constructor, but the embedding is
  careful to treat it as an `int` wherever Python's `isinstance(value, int)`
  would (in Python, `bool` is a subclass of `int`).
* Python floats are modelled by their `repr` string (for finite floats, `repr`
  is a bijection onto the canonical shortest decimal literals, and
  `json.dumps` of a float is exactly its `repr`).
* Exceptions are modelled with `Except PyError`; the Python code raises
  `TypeError`, `KeyError`, `IndexError`, `AttributeError` and `ValueError`,
  and unbounded recursion raises a recursion error.
* The recursive (de)serializers take an explicit fuel argument standing for
  the interpreter's recursion limit; theorems supply enough fuel for their
  inputs (`sizeOf` bounds the recursion depth).
-/

/-- A Python value, restricted to the kinds handled by the attribute layer.
`other kind` stands for any object of an unsupported type named `kind`. -/
inductive PyValue : Type where
  | str (s : String)
  | int (n : Int)
  | bool (b : Bool)
  | float (repr : String)
  | dict (entries : List (PyValue × PyValue))
  | list (items : List PyValue)
  | set (items : List PyValue)
  | none
  | other (kind : String)

/-- The Python exceptions raised by the code under verification. -/
inductive PyError : Type where
  | typeError (msg : String)
  | keyError (key : PyValue)
  | indexError (msg : String)
  | valueError (msg : String)
  | attributeError (msg : String)
  | recursionError

/-- Map an `Except`-valued function over a list, stopping at the first error.
This models a Python `for` loop that builds up a result and lets exceptions
propagate. -/
def listMapExcept {α β : Type} (f : α → Except PyError β) : List α → Except PyError (List β)
  | [] => .ok []
  | a :: as =>
    match f a with
    | .error e => .error e
    | .ok b =>
      match listMapExcept f as with
      | .error e => .error e
      | .ok bs => .ok (b :: bs)

/-- The decimal digit character for `d < 10`; models how Python prints one
decimal digit. -/
def digitCh (d : Nat) : Char := Char.ofNat (48 + d)

/-- Decimal representation of a natural number as a character list
(most significant digit first), computed with fuel so that the definition is
structurally recursive; `fuel > n` always suffices. -/
def natReprAux : Nat → Nat → List Char
  | 0, _ => []
  | fuel+1, n => if n < 10 then [digitCh n] else natReprAux fuel (n / 10) ++ [digitCh (n % 10)]

/-- Decimal representation of a natural number, as printed by Python. -/
def natRepr (n : Nat) : String := String.mk (natReprAux (n + 1) n)

/-- Decimal representation of a Python integer: `repr(n)`, which is also
`json.dumps(n)`. -/
def intRepr (n : Int) : String :=
  if n < 0 then "-" ++ natRepr n.natAbs else natRepr n.natAbs

/-- Numeric value of a decimal digit character. -/
def charDigit (c : Char) : Nat := c.toNat - 48

/-- Whether a character is a decimal digit. -/
def isDigitCh (c : Char) : Bool := 48 ≤ c.toNat && c.toNat ≤ 57

/-- Parse a non-empty all-digit character list as a natural number. -/
def parseNatDigits (cs : List Char) : Option Nat :=
  if cs ≠ [] ∧ cs.all isDigitCh then some (cs.foldl (fun a c => 10 * a + charDigit c) 0)
  else Option.none

/-- Parse a decimal integer literal from a character list (an optional minus
sign and digits). -/
def parseIntList : List Char → Option Int
  | [] => Option.none
  | c :: cs =>
    if c = '-' then (parseNatDigits cs).map (fun m => -(m : Int))
    else (parseNatDigits (c :: cs)).map (fun m => (m : Int))

/-- Parse a decimal integer literal, the integer fragment of `json.loads`. -/
def parseInt (s : String) : Option Int := parseIntList s.toList

/-- Hexadecimal digit character (lower case), for JSON unicode escapes. -/
def hexDigitCh (d : Nat) : Char :=
  if d < 10 then Char.ofNat (48 + d) else Char.ofNat (87 + d)

/-- Four-digit hexadecimal form of a code point, for JSON `\uXXXX` escapes. -/
def hex4 (n : Nat) : List Char :=
  [hexDigitCh (n / 4096 % 16), hexDigitCh (n / 256 % 16), hexDigitCh (n / 16 % 16),
   hexDigitCh (n % 16)]

/-- How `json.dumps` (with its default `ensure_ascii=True`) escapes one
character inside a string literal: the shorthand escapes for quote,
backslash, backspace, form feed, newline, carriage return and tab, `\uXXXX`
for other control and non-ASCII characters, and a UTF-16 surrogate pair for
code points beyond the basic plane. -/
def jsonEscapeChar (c : Char) : List Char :=
  if c = '"' then ['\\', '"']
  else if c = '\\' then ['\\', '\\']
  else if c = '\x08' then ['\\', 'b']
  else if c = '\x0c' then ['\\', 'f']
  else if c = '\n' then ['\\', 'n']
  else if c = '\r' then ['\\', 'r']
  else if c = '\t' then ['\\', 't']
  else if c.toNat < 32 ∨ 126 < c.toNat then
    if c.toNat ≤ 65535 then '\\' :: 'u' :: hex4 c.toNat
    else
      '\\' :: 'u' :: hex4 (55296 + (c.toNat - 65536) / 1024) ++
        ('\\' :: 'u' :: hex4 (56320 + (c.toNat - 65536) % 1024))
  else [c]

/-- Concatenation of the escapes of every character. -/
def jsonEscapeList : List Char → List Char
  | [] => []
  | c :: cs => jsonEscapeChar c ++ jsonEscapeList cs

/-- `json.dumps` applied to a text value: the escaped text surrounded by
double quotes. -/
def jsonQuote (s : String) : String :=
  String.mk ('"' :: jsonEscapeList s.toList ++ ['"'])

/-- Inverse of `jsonQuote` for literals without escape sequences.  (Escape
sequences inside wire strings are never produced nor consumed by the claims
under verification, so they are not modelled.) -/
def jsonUnquoteSimple (s : String) : Option String :=
  match s.toList with
  | '"' :: cs =>
    match cs.reverse with
    | '"' :: rev =>
      let inner := rev.reverse
      if inner.all (fun c => c ≠ '"' && c ≠ '\\') then some (String.mk inner) else Option.none
    | _ => Option.none
  | _ => Option.none

/-- Loose check for a JSON float literal (digits with a decimal point or an
exponent).  Python floats are modelled by their canonical `repr` strings, so
`json.loads` of such a literal is modelled as that float. -/
def isFloatLit (s : String) : Bool :=
  let cs := s.toList
  cs ≠ [] && cs.all (fun c => isDigitCh c || c = '-' || c = '+' || c = '.' || c = 'e' || c = 'E')
    && cs.any isDigitCh && cs.any (fun c => c = '.' || c = 'e' || c = 'E')

/-- `json.dumps` restricted to scalar values.  The composite branches of
`json.dumps` are unreachable in this development: it is only called on set
elements (hashable, hence scalar) and on values routed to the number codec. -/
def json_dumps : PyValue → Except PyError String
  | .str s => .ok (jsonQuote s)
  | .int n => .ok (intRepr n)
  | .bool b => .ok (if b then "true" else "false")
  | .float r => .ok r
  | PyValue.none => .ok "null"
  | _ => .error (.typeError "is not JSON serializable")

/-- `json.loads` restricted to scalar literals: integers, the keywords, float
literals and simple string literals.  Malformed input raises `ValueError`. -/
def json_loads (s : String) : Except PyError PyValue :=
  match parseInt s with
  | some n => .ok (.int n)
  | Option.none =>
    if s = "true" then .ok (.bool true)
    else if s = "false" then .ok (.bool false)
    else if s = "null" then .ok PyValue.none
    else if isFloatLit s then .ok (.float s)
    else
      match jsonUnquoteSimple s with
      | some t => .ok (.str t)
      | Option.none => .error (.valueError "No JSON object could be decoded")

/-- The attribute-type constants of `pynamodb.constants` (STRING, NUMBER,
BOOLEAN, BINARY, STRING_SET, NUMBER_SET, BINARY_SET, MAP, LIST). -/
inductive DynType : Type where
  | string
  | number
  | boolean
  | binary
  | stringSet
  | numberSet
  | binarySet
  | map
  | list
  deriving DecidableEq

/-- Modelled from the spec: the Type Tag Table (`ATTR_TYPE_MAP` of
`pynamodb.constants`, whose source is not included) is a static bidirectional
mapping between the fixed wire-tag enumeration and the attribute-type
constants.  This is the forward direction, from constant to wire tag. -/
def ATTR_TYPE_MAP_tag : DynType → String
  | .string => "S"
  | .number => "N"
  | .boolean => "BOOL"
  | .binary => "B"
  | .stringSet => "SS"
  | .numberSet => "NS"
  | .binarySet => "BS"
  | .map => "M"
  | .list => "L"

/-- Modelled from the spec: the reverse direction of the Type Tag Table, from
wire tag to attribute-type constant.  `Option.none` models the `KeyError`
raised by `ATTR_TYPE_MAP[tag]` for a tag outside the fixed enumeration. -/
def ATTR_TYPE_MAP_lookup : String → Option DynType
  | "S" => some .string
  | "N" => some .number
  | "BOOL" => some .boolean
  | "B" => some .binary
  | "SS" => some .stringSet
  | "NS" => some .numberSet
  | "BS" => some .binarySet
  | "M" => some .map
  | "L" => some .list
  | _ => Option.none

/-- The fixed wire-tag enumeration of the wire format. -/
def tagEnumeration : List String := ["S", "N", "B", "BOOL", "SS", "NS", "BS", "M", "L"]

/-- The four codec singletons consulted by the generic dispatcher:
`STRING_TYPE`, `NUMBER_TYPE`, `MAP_TYPE` and `LIST_TYPE` (the module never
instantiates `BOOLEAN_TYPE` for dispatch, and `BINARY_TYPE` is commented
out). -/
inductive PynamoType : Type where
  | stringType
  | numberType
  | mapType
  | listType
  deriving DecidableEq

/-- The `attr_type` class attribute of each dispatched codec singleton. -/
def PynamoType.attr_type : PynamoType → DynType
  | .stringType => .string
  | .numberType => .number
  | .mapType => .map
  | .listType => .list

/-- `BaseAttribute.deserialize`: the identity (inherited by the unicode
codec, which does not override it). -/
def BaseAttribute.deserialize (value : PyValue) : Except PyError PyValue := .ok value

/-- `BaseUnicodeAttribute.serialize`: `None` or empty input serializes to
`None` ("absent"), other text is passed through.  (Values without `len` would
raise `TypeError`; the dispatcher only routes text here.) -/
def BaseUnicodeAttribute.serialize (value : PyValue) : Except PyError PyValue :=
  match value with
  | PyValue.none => .ok PyValue.none
  | .str s => if s.length = 0 then .ok PyValue.none else .ok (.str s)
  | .list xs => if xs.length = 0 then .ok PyValue.none else .error (.typeError "coercing to Unicode")
  | .dict es => if es.length = 0 then .ok PyValue.none else .error (.typeError "coercing to Unicode")
  | .set xs => if xs.length = 0 then .ok PyValue.none else .error (.typeError "coercing to Unicode")
  | _ => .error (.typeError "object has no len()")

/-- `BaseNumberAttribute.serialize`: `json.dumps` of the value. -/
def BaseNumberAttribute.serialize (value : PyValue) : Except PyError PyValue :=
  (json_dumps value).map PyValue.str

/-- `BaseNumberAttribute.deserialize`: `json.loads` of the wire text
(`json.loads` of a non-string payload raises `TypeError`). -/
def BaseNumberAttribute.deserialize (value : PyValue) : Except PyError PyValue :=
  match value with
  | .str s => json_loads s
  | _ => .error (.typeError "expected string or buffer")

/-- Lexicographic strict comparison of character lists by code point, the
order Python uses on text. -/
def charListLt : List Char → List Char → Bool
  | _, [] => false
  | [], _ :: _ => true
  | a :: as, b :: bs =>
    if a.toNat < b.toNat then true
    else if b.toNat < a.toNat then false
    else charListLt as bs

/-- Lexicographic strict comparison of Python text. -/
def strLt (s t : String) : Bool := charListLt s.toList t.toList

/-- The Python 2 type name of a value, used by cross-type comparison. -/
def pyTypeName : PyValue → String
  | .str _ => "str"
  | .int _ => "int"
  | .bool _ => "bool"
  | .float _ => "float"
  | .dict _ => "dict"
  | .list _ => "list"
  | .set _ => "set"
  | PyValue.none => "NoneType"
  | .other kind => kind

/-- Split a character list into its leading decimal digits and the rest. -/
def takeDigits : List Char → List Char × List Char
  | [] => ([], [])
  | c :: rest =>
    if isDigitCh c then
      let p := takeDigits rest
      (c :: p.1, p.2)
    else ([], c :: rest)

/-- The natural number denoted by a list of decimal digit characters. -/
def digitsVal (cs : List Char) : Nat := cs.foldl (fun a c => 10 * a + charDigit c) 0

/-- The exact numeric value of a decimal float literal, as a pair
`(mantissa, exponent)` denoting `mantissa * 10 ^ exponent`: the sign and
digits before the point, the digits after the point, and an optional
signed `e`-exponent.  A string that is not a decimal literal denotes 0
(Python floats are modelled by their canonical finite literals, so this
default is never reached from a genuine float). -/
def decLitVal (s : String) : Int × Int :=
  let sn : Bool × List Char :=
    match s.toList with
    | '-' :: r => (true, r)
    | cs => (false, cs)
  let ip := takeDigits sn.2
  let fp : List Char × List Char :=
    match ip.2 with
    | '.' :: r => takeDigits r
    | rest => ([], rest)
  let ex : Int :=
    match fp.2 with
    | 'e' :: '-' :: r2 => -(digitsVal (takeDigits r2).1 : Int)
    | 'E' :: '-' :: r2 => -(digitsVal (takeDigits r2).1 : Int)
    | 'e' :: '+' :: r2 => (digitsVal (takeDigits r2).1 : Int)
    | 'E' :: '+' :: r2 => (digitsVal (takeDigits r2).1 : Int)
    | 'e' :: r2 => (digitsVal (takeDigits r2).1 : Int)
    | 'E' :: r2 => (digitsVal (takeDigits r2).1 : Int)
    | _ => 0
  let m : Int := (digitsVal (ip.1 ++ fp.1) : Nat)
  ((if sn.1 then -m else m), ex - fp.1.length)

/-- Compare two `(mantissa, exponent)` decimal values: after scaling both to
the smaller exponent the comparison is an integer comparison. -/
def decPairLt (p q : Int × Int) : Bool :=
  if p.2 ≥ q.2 then p.1 * 10 ^ (p.2 - q.2).toNat < q.1
  else p.1 < q.1 * 10 ^ (q.2 - p.2).toNat

/-- The rational value denoted by a `(mantissa, exponent)` pair; used only
in proofs about the comparison. -/
def pairValQ (p : Int × Int) : Rat := (p.1 : Rat) * (10 : Rat) ^ p.2

/-- The numeric value of a Python number, as a decimal `(mantissa, exponent)`
pair: integers and booleans directly (a Python `bool` compares as its
numeric value), floats through their literal.  `Option.none` for
non-numbers. -/
def pyNumVal : PyValue → Option (Int × Int)
  | .int n => some (n, 0)
  | .bool b => some ((if b then 1 else 0), 0)
  | .float r => some (decLitVal r)
  | _ => Option.none

/-- Whether a value is a scalar native kind (text, integer, boolean or
float), the element kinds a Python set can hold in this layer. -/
def isScalar : PyValue → Bool
  | .str _ => true
  | .int _ => true
  | .bool _ => true
  | .float _ => true
  | _ => false

/-- The strict comparison used by Python's `sorted`: numbers (integers,
booleans and floats) compare numerically with one another, text compares
lexicographically, and values of different comparison classes fall back to
Python 2's arbitrary but consistent cross-type order, modelled by type
name (which places numbers before text, as Python 2 does). -/
def pyLt (a b : PyValue) : Bool :=
  match pyNumVal a, pyNumVal b with
  | some p, some q => decPairLt p q
  | _, _ =>
    match a, b with
    | .str s, .str t => strLt s t
    | a, b => strLt (pyTypeName a) (pyTypeName b)

/-- Insert into a list sorted by `pyLt`. -/
def sortedInsert (a : PyValue) : List PyValue → List PyValue
  | [] => [a]
  | b :: bs => if pyLt b a then b :: sortedInsert a bs else a :: b :: bs

/-- Python's `sorted`, modelled by insertion sort: on the totally ordered
scalar domains the claims sort, the result is the unique sorted permutation
of the input, which is what `sorted` returns. -/
def pySorted : List PyValue → List PyValue
  | [] => []
  | a :: as => sortedInsert a (pySorted as)

/-- The elements produced by `iter(value)` (`Option.none` models the
`TypeError` for non-iterable values).  Iterating text yields its characters
as one-character strings; iterating a dict yields its keys. -/
def pyIterElems : PyValue → Option (List PyValue)
  | .list xs => some xs
  | .set xs => some xs
  | .str s => some (s.toList.map (fun c => PyValue.str (String.mk [c])))
  | .dict es => some (es.map Prod.fst)
  | _ => Option.none

/-- `SetMixin.serialize`: `None` and empty collections serialize to `None`
("absent"); otherwise the elements are sorted and each is encoded with
`json.dumps`.  A non-iterable value is first wrapped in a one-element list. -/
def SetMixin.serialize (value : PyValue) : Except PyError PyValue :=
  match value with
  | PyValue.none => .ok PyValue.none
  | v =>
    let items := (pyIterElems v).getD [v]
    if items.length = 0 then .ok PyValue.none
    else (listMapExcept json_dumps (pySorted items)).map (fun ss => PyValue.list (ss.map PyValue.str))

/-- `get_pynamo_type`: the generic dispatcher.  Text goes to the string
codec; `int`, `float` and `bool` (a subclass of `int` in Python, and not
special-cased here) go to the number codec; dicts to the map codec; lists to
the list codec; anything else raises `TypeError` with a fixed message. -/
def get_pynamo_type (value : PyValue) : Except PyError PynamoType :=
  match value with
  | .str _ => .ok .stringType
  | .int _ => .ok .numberType
  | .bool _ => .ok .numberType
  | .float _ => .ok .numberType
  | .dict _ => .ok .mapType
  | .list _ => .ok .listType
  | _ => .error (.typeError "Trying to use a python type that is not supported. Only, string, int, float, dict and list are supported.")

/-- The single-tag wire wrapper `{ATTR_TYPE_MAP[value_type.attr_type]: serialized}`
built by the map and list serializers for each entry. -/
def wrapTag (t : PynamoType) (serialized : PyValue) : PyValue :=
  PyValue.dict [(PyValue.str (ATTR_TYPE_MAP_tag t.attr_type), serialized)]

/-- One iteration of the `BaseMapAttribute.serialize` loop: reject a
non-text key, otherwise wrap the entry value and keep the original key. -/
def mapSerializeEntry (wrapped : PyValue → Except PyError PyValue) (kv : PyValue × PyValue) :
    Except PyError (PyValue × PyValue) :=
  match kv.1 with
  | .str _ => (wrapped kv.2).map (fun w => (kv.1, w))
  | _ => .error (.typeError "Map keys must be strings.")

/-- The body of `BaseMapAttribute.serialize`, parametrized by the function
that turns an entry value into its wire wrapper: reject non-dict input,
reject non-text keys, and emit each wrapped value under its original key. -/
def mapSerializeBody (wrapped : PyValue → Except PyError PyValue) : PyValue → Except PyError PyValue
  | .dict es => (listMapExcept (mapSerializeEntry wrapped) es).map PyValue.dict
  | _ => .error (.typeError "Only map(dict) types can be serialized using this method. Use the other pynamodb types if a map is not being used.")

/-- The body of `BaseListAttribute.serialize`, parametrized the same way:
reject non-list input and emit the wrapped values in input order. -/
def listSerializeBody (wrapped : PyValue → Except PyError PyValue) : PyValue → Except PyError PyValue
  | .list xs => (listMapExcept wrapped xs).map PyValue.list
  | _ => .error (.typeError "Only list types can be serialized using this method. Use other pynamodb types if a list is not being used.")

/-- The recursive serializer: `value_type.serialize(value)` after dispatch,
where the map and list branches re-enter the dispatcher for every element.
`fuel` models the interpreter's recursion limit. -/
def serialize_nested : Nat → PynamoType → PyValue → Except PyError PyValue
  | 0, _, _ => .error PyError.recursionError
  | fuel+1, t, value =>
    match t with
    | .stringType => BaseUnicodeAttribute.serialize value
    | .numberType => BaseNumberAttribute.serialize value
    | .mapType => mapSerializeBody (fun v => do
        let vt ← get_pynamo_type v
        let s ← serialize_nested fuel vt v
        pure (wrapTag vt s)) value
    | .listType => listSerializeBody (fun v => do
        let vt ← get_pynamo_type v
        let s ← serialize_nested fuel vt v
        pure (wrapTag vt s)) value
termination_by structural fuel _ _ => fuel

/-- Dispatch a value and build its single-tag wire wrapper: the per-entry
step `{ATTR_TYPE_MAP[get_pynamo_type(v).attr_type]: get_pynamo_type(v).serialize(v)}`
shared by the map and list serializers. -/
def serialize_wrapped (fuel : Nat) (v : PyValue) : Except PyError PyValue := do
  let vt ← get_pynamo_type v
  let s ← serialize_nested fuel vt v
  pure (wrapTag vt s)

/-- `BaseMapAttribute.serialize`. -/
def BaseMapAttribute.serialize (fuel : Nat) (dictionary : PyValue) : Except PyError PyValue :=
  mapSerializeBody (serialize_wrapped fuel) dictionary

/-- `BaseListAttribute.serialize`. -/
def BaseListAttribute.serialize (fuel : Nat) (values : PyValue) : Except PyError PyValue :=
  listSerializeBody (serialize_wrapped fuel) values

/-- One iteration of the `BaseMapAttribute.deserialize` loop: decode the
entry value and keep the original key. -/
def mapDeserializeEntry (deser : PyValue → Except PyError PyValue) (kv : PyValue × PyValue) :
    Except PyError (PyValue × PyValue) :=
  (deser kv.2).map (fun d => (kv.1, d))

/-- The body of `BaseMapAttribute.deserialize`, parametrized by the element
decoder: decode every entry value with `get_python_type` and keep its key.
Calling `.iteritems()` on a non-dict payload raises `AttributeError`. -/
def mapDeserializeBody (deser : PyValue → Except PyError PyValue) : PyValue → Except PyError PyValue
  | .dict es => (listMapExcept (mapDeserializeEntry deser) es).map PyValue.dict
  | _ => .error (.attributeError "object has no attribute iteritems")

/-- The body of `BaseListAttribute.deserialize`: decode every item in order.
Iteration of a non-list iterable payload follows Python's `for` semantics. -/
def listDeserializeBody (deser : PyValue → Except PyError PyValue) : PyValue → Except PyError PyValue
  | .list xs => (listMapExcept deser xs).map PyValue.list
  | v =>
    match pyIterElems v with
    | some xs => (listMapExcept deser xs).map PyValue.list
    | Option.none => .error (.typeError "object is not iterable")

/-- `get_python_type`: the wire decoder.  It reads the first key of the wire
dict (`dynamo_value.keys()[0]`), looks it up in the Type Tag Table, and
dispatches on the resulting constant; `STRING` uses the inherited identity
deserializer, `NUMBER` uses `json.loads`, `MAP` and `LIST` recurse, and every
other constant raises `TypeError` naming the tag.  A non-dict input raises
`TypeError`; an empty dict raises `IndexError`; an unknown tag raises
`KeyError` from the table lookup. -/
def get_python_type : Nat → PyValue → Except PyError PyValue
  | 0, _ => .error PyError.recursionError
  | fuel+1, dynamo_value =>
    match dynamo_value with
    | .dict [] => .error (.indexError "list index out of range")
    | .dict ((key0, payload) :: _) =>
      match key0 with
      | .str value_type =>
        match ATTR_TYPE_MAP_lookup value_type with
        | Option.none => .error (.keyError (PyValue.str value_type))
        | some dt =>
          match dt with
          | .string => BaseAttribute.deserialize payload
          | .number => BaseNumberAttribute.deserialize payload
          | .map => mapDeserializeBody (fun x => get_python_type fuel x) payload
          | .list => listDeserializeBody (fun x => get_python_type fuel x) payload
          | _ => .error (.typeError ("The given Dynamodb type is not supported. Type: " ++ value_type))
      | k => .error (.keyError k)
    | _ => .error (.typeError "The dict object returned by dynamodb should be parsed for getting the python native type.")
termination_by structural fuel _ => fuel

/-- `BaseMapAttribute.deserialize`. -/
def BaseMapAttribute.deserialize (fuel : Nat) (value : PyValue) : Except PyError PyValue :=
  mapDeserializeBody (fun x => get_python_type fuel x) value

/-- `BaseListAttribute.deserialize`. -/
def BaseListAttribute.deserialize (fuel : Nat) (value : PyValue) : Except PyError PyValue :=
  listDeserializeBody (fun x => get_python_type fuel x) value

/-- Whether a Python value is text (`isinstance(value, basestring)`). -/
def PyValue.isStr : PyValue → Bool
  | .str _ => true
  | _ => false

/-- The class of native values claimed to round-trip: non-empty text,
numbers (integers, and floats represented by canonical float literals),
text-keyed mappings and lists, nested arbitrarily. -/
inductive Roundtrippable : PyValue → Prop where
  | str (s : String) : s ≠ "" → Roundtrippable (.str s)
  | int (n : Int) : Roundtrippable (.int n)
  | float (r : String) : isFloatLit r = true → Roundtrippable (.float r)
  | dict (es : List (PyValue × PyValue)) :
      (∀ kv, kv ∈ es → ∃ k : String, kv.1 = PyValue.str k) →
      (∀ kv, kv ∈ es → Roundtrippable kv.2) →
      Roundtrippable (.dict es)
  | list (xs : List PyValue) :
      (∀ x, x ∈ xs → Roundtrippable x) →
      Roundtrippable (.list xs)

mutual
/-- A well-formed wire wrapper: a single-key structure whose sole key is a
tag from the fixed enumeration and whose payload is well formed. -/
inductive GoodWrapper : PyValue → Prop where
  | mk (tag : String) (payload : PyValue) :
      tag ∈ tagEnumeration → GoodPayload payload →
      GoodWrapper (PyValue.dict [(PyValue.str tag, payload)])

/-- A well-formed wire payload: scalar wire text, the absent marker, or a
composite whose members are themselves well-formed wrappers. -/
inductive GoodPayload : PyValue → Prop where
  | scalarStr (s : String) : GoodPayload (.str s)
  | scalarNone : GoodPayload PyValue.none
  | mapPayload (es : List (PyValue × PyValue)) :
      (∀ kv, kv ∈ es → GoodWrapper kv.2) → GoodPayload (.dict es)
  | listPayload (xs : List PyValue) :
      (∀ x, x ∈ xs → GoodWrapper x) → GoodPayload (.list xs)
end

theorem listMapExcept_nil {α β : Type} (f : α → Except PyError β) : listMapExcept f [] = .ok [] := rfl

theorem listMapExcept_cons_ok {α β : Type} (f : α → Except PyError β) (a : α) (as : List α)
    (b : β) (h : f a = .ok b) :
    listMapExcept f (a :: as) = (listMapExcept f as).map (fun bs => b :: bs) := by
  cases has : listMapExcept f as <;> simp [listMapExcept, h, has, Except.map]

theorem listMapExcept_cons_error {α β : Type} (f : α → Except PyError β) (a : α) (as : List α)
    (e : PyError) (h : f a = .error e) :
    listMapExcept f (a :: as) = .error e := by
  simp [listMapExcept, h]

theorem listMapExcept_forall {α β : Type} (f : α → Except PyError β) :
    ∀ l : List α, (∀ x, x ∈ l → ∃ w, f x = .ok w) →
    ∃ ws, listMapExcept f l = .ok ws ∧ List.Forall₂ (fun x w => f x = .ok w) l ws := by
  intro l
  induction l with
  | nil => exact fun _ => ⟨[], rfl, List.Forall₂.nil⟩
  | cons a as ih =>
    intro h
    obtain ⟨w, hw⟩ := h a (List.mem_cons_self a as)
    obtain ⟨ws, hws, hall⟩ := ih (fun x hx => h x (List.mem_cons_of_mem a hx))
    exact ⟨w :: ws, by simp [listMapExcept, hw, hws], List.Forall₂.cons hw hall⟩

theorem listMapExcept_of_forall₂ {α β : Type} (f : α → Except PyError β) :
    ∀ {l : List α} {ws : List β}, List.Forall₂ (fun x w => f x = .ok w) l ws →
    listMapExcept f l = .ok ws := by
  intro l ws h
  induction h with
  | nil => rfl
  | cons hxw _ ih => simp [listMapExcept, hxw, ih]

theorem listMapExcept_ok_forall₂ {α β : Type} (f : α → Except PyError β) :
    ∀ {l : List α} {ws : List β}, listMapExcept f l = .ok ws →
    List.Forall₂ (fun x w => f x = .ok w) l ws := by
  intro l
  induction l with
  | nil =>
    intro ws h
    simp only [listMapExcept] at h
    cases h
    exact List.Forall₂.nil
  | cons a as ih =>
    intro ws h
    simp only [listMapExcept] at h
    cases ha : f a with
    | error e => rw [ha] at h; cases h
    | ok b =>
      rw [ha] at h
      cases has : listMapExcept f as with
      | error e => rw [has] at h; cases h
      | ok bs =>
        rw [has] at h
        cases h
        exact List.Forall₂.cons ha (ih has)

theorem exceptMap_ok {α β : Type} {e : Except PyError α} {g : α → β} {b : β}
    (h : e.map g = .ok b) : ∃ a, e = .ok a ∧ b = g a := by
  cases e with
  | error err => simp [Except.map] at h
  | ok a => exact ⟨a, rfl, by simpa [Except.map] using h.symm⟩

theorem serialize_wrapped_eq (fuel : Nat) (v : PyValue) :
    serialize_wrapped fuel v =
      match get_pynamo_type v with
      | .error e => .error e
      | .ok t =>
        match serialize_nested fuel t v with
        | .error e => .error e
        | .ok s => .ok (wrapTag t s) := by
  unfold serialize_wrapped
  cases h : get_pynamo_type v with
  | error e => simp [Bind.bind, Except.bind]
  | ok t =>
    cases hs : serialize_nested fuel t v <;> simp [Bind.bind, Except.bind, hs, Pure.pure, Except.pure]

theorem serialize_nested_map (fuel : Nat) (v : PyValue) :
    serialize_nested (fuel+1) PynamoType.mapType v = BaseMapAttribute.serialize fuel v := rfl

theorem serialize_nested_list (fuel : Nat) (v : PyValue) :
    serialize_nested (fuel+1) PynamoType.listType v = BaseListAttribute.serialize fuel v := rfl

theorem serialize_nested_string (fuel : Nat) (v : PyValue) :
    serialize_nested (fuel+1) PynamoType.stringType v = BaseUnicodeAttribute.serialize v := rfl

theorem serialize_nested_number (fuel : Nat) (v : PyValue) :
    serialize_nested (fuel+1) PynamoType.numberType v = BaseNumberAttribute.serialize v := rfl

theorem get_python_type_tag_S (fuel : Nat) (p : PyValue) (rest : List (PyValue × PyValue)) :
    get_python_type (fuel+1) (.dict ((.str "S", p) :: rest)) = BaseAttribute.deserialize p := rfl

theorem get_python_type_tag_N (fuel : Nat) (p : PyValue) (rest : List (PyValue × PyValue)) :
    get_python_type (fuel+1) (.dict ((.str "N", p) :: rest)) = BaseNumberAttribute.deserialize p := rfl

theorem get_python_type_tag_M (fuel : Nat) (p : PyValue) (rest : List (PyValue × PyValue)) :
    get_python_type (fuel+1) (.dict ((.str "M", p) :: rest)) = BaseMapAttribute.deserialize fuel p := rfl

theorem get_python_type_tag_L (fuel : Nat) (p : PyValue) (rest : List (PyValue × PyValue)) :
    get_python_type (fuel+1) (.dict ((.str "L", p) :: rest)) = BaseListAttribute.deserialize fuel p := rfl

theorem sizeOf_snd_lt_dict {es : List (PyValue × PyValue)} {kv : PyValue × PyValue}
    (h : kv ∈ es) : sizeOf kv.2 < sizeOf (PyValue.dict es) := by
  have h1 := List.sizeOf_lt_of_mem h
  have h2 : sizeOf kv.2 < sizeOf kv := by
    obtain ⟨a, b⟩ := kv
    simp only [Prod.mk.sizeOf_spec]
    omega
  simp only [PyValue.dict.sizeOf_spec]
  omega

theorem sizeOf_mem_lt_list {xs : List PyValue} {x : PyValue}
    (h : x ∈ xs) : sizeOf x < sizeOf (PyValue.list xs) := by
  have h1 := List.sizeOf_lt_of_mem h
  simp only [PyValue.list.sizeOf_spec]
  omega

theorem one_le_sizeOf (v : PyValue) : 1 ≤ sizeOf v := by
  cases v <;> simp

theorem charDigit_digitCh {d : Nat} (hd : d < 10) : charDigit (digitCh d) = d := by
  interval_cases d <;> rfl

theorem isDigitCh_digitCh {d : Nat} (hd : d < 10) : isDigitCh (digitCh d) = true := by
  interval_cases d <;> rfl

theorem natReprAux_ne_nil (fuel n : Nat) (h : 0 < fuel) : natReprAux fuel n ≠ [] := by
  cases fuel with
  | zero => omega
  | succ f =>
    rw [natReprAux]
    by_cases hn : n < 10
    · rw [if_pos hn]; simp
    · rw [if_neg hn]; simp

theorem natReprAux_all_digits : ∀ fuel n : Nat, (natReprAux fuel n).all isDigitCh = true := by
  intro fuel
  induction fuel with
  | zero => intro n; rfl
  | succ f ih =>
    intro n
    rw [natReprAux]
    by_cases hn : n < 10
    · rw [if_pos hn]
      simp [isDigitCh_digitCh hn]
    · rw [if_neg hn]
      have hm : n % 10 < 10 := Nat.mod_lt _ (by omega)
      simp [List.all_append, ih (n / 10), isDigitCh_digitCh hm]

theorem natReprAux_foldl : ∀ fuel n a : Nat, n < fuel →
    (natReprAux fuel n).foldl (fun a c => 10 * a + charDigit c) a =
      a * 10 ^ (natReprAux fuel n).length + n := by
  intro fuel
  induction fuel with
  | zero => intro n a h; omega
  | succ f ih =>
    intro n a h
    rw [natReprAux]
    by_cases hn : n < 10
    · rw [if_pos hn]
      simp [charDigit_digitCh hn]
      omega
    · rw [if_neg hn]
      have hdiv : n / 10 < f := by
        have h1 : n / 10 < n := Nat.div_lt_self (by omega) (by omega)
        omega
      have hm : n % 10 < 10 := Nat.mod_lt _ (by omega)
      rw [List.foldl_append]
      simp only [List.foldl_cons, List.foldl_nil, List.length_append, List.length_cons,
        List.length_nil]
      rw [ih (n / 10) a hdiv]
      rw [pow_succ, ← mul_assoc]
      rw [charDigit_digitCh hm]
      have hdm := Nat.div_add_mod n 10
      generalize a * 10 ^ (natReprAux f (n / 10)).length = y
      omega

theorem parseNatDigits_natReprAux {fuel n : Nat} (h : n < fuel) :
    parseNatDigits (natReprAux fuel n) = some n := by
  unfold parseNatDigits
  rw [if_pos ⟨natReprAux_ne_nil fuel n (by omega), natReprAux_all_digits fuel n⟩]
  rw [natReprAux_foldl fuel n 0 h]
  simp

theorem head_natReprAux_ne_minus (fuel n : Nat) (c : Char) (cs : List Char)
    (h : natReprAux fuel n = c :: cs) : ¬ c = '-' := by
  intro hc
  have hall := natReprAux_all_digits fuel n
  rw [h, hc] at hall
  simp [List.all_cons, isDigitCh] at hall

theorem parseInt_intRepr (n : Int) : parseInt (intRepr n) = some n := by
  unfold parseInt intRepr
  by_cases hn : n < 0
  · rw [if_pos hn]
    have hdata : ("-" ++ natRepr n.natAbs).toList = '-' :: natReprAux (n.natAbs + 1) n.natAbs := by
      show ("-" ++ natRepr n.natAbs).data = _
      rw [String.data_append]
      rfl
    rw [hdata]
    rw [parseIntList, if_pos rfl]
    rw [parseNatDigits_natReprAux (Nat.lt_succ_self _)]
    show some (-(n.natAbs : Int)) = some n
    congr 1
    omega
  · rw [if_neg hn]
    have hdata : (natRepr n.natAbs).toList = natReprAux (n.natAbs + 1) n.natAbs := rfl
    rw [hdata]
    cases hrep : natReprAux (n.natAbs + 1) n.natAbs with
    | nil => exact absurd hrep (natReprAux_ne_nil _ _ (by omega))
    | cons c cs =>
      rw [parseIntList, if_neg (head_natReprAux_ne_minus _ _ c cs hrep)]
      rw [← hrep, parseNatDigits_natReprAux (Nat.lt_succ_self _)]
      show some ((n.natAbs : Int)) = some n
      congr 1
      omega

theorem json_loads_intRepr (n : Int) : json_loads (intRepr n) = .ok (.int n) := by
  unfold json_loads
  rw [parseInt_intRepr]

theorem charListLt_asymm : ∀ xs ys : List Char, charListLt xs ys = true → charListLt ys xs = false := by
  intro xs
  induction xs with
  | nil =>
    intro ys h
    cases ys with
    | nil => cases h
    | cons b bs => rfl
  | cons a as ih =>
    intro ys h
    cases ys with
    | nil => cases h
    | cons b bs =>
      rw [charListLt] at h ⊢
      by_cases h1 : a.toNat < b.toNat
      · rw [if_neg (by omega), if_pos h1]
      · rw [if_neg h1] at h
        by_cases h2 : b.toNat < a.toNat
        · rw [if_pos h2] at h; cases h
        · rw [if_neg h2] at h
          rw [if_neg h1, if_neg h2]
          exact ih bs h

theorem charListLt_trans : ∀ xs ys zs : List Char,
    charListLt xs ys = true → charListLt ys zs = true → charListLt xs zs = true := by
  intro xs
  induction xs with
  | nil =>
    intro ys zs h1 h2
    cases zs with
    | nil =>
      cases ys with
      | nil => cases h1
      | cons b bs => cases h2
    | cons c cs => rfl
  | cons a as ih =>
    intro ys zs h1 h2
    cases ys with
    | nil => cases h1
    | cons b bs =>
      cases zs with
      | nil => cases h2
      | cons c cs =>
        rw [charListLt] at h1 h2 ⊢
        by_cases hab : a.toNat < b.toNat
        · by_cases hbc : b.toNat < c.toNat
          · rw [if_pos (by omega)]
          · rw [if_neg hbc] at h2
            by_cases hcb : c.toNat < b.toNat
            · rw [if_pos hcb] at h2; cases h2
            · rw [if_pos (by omega)]
        · rw [if_neg hab] at h1
          by_cases hba : b.toNat < a.toNat
          · rw [if_pos hba] at h1; cases h1
          · rw [if_neg hba] at h1
            by_cases hbc : b.toNat < c.toNat
            · rw [if_pos (by omega)]
            · rw [if_neg hbc] at h2
              by_cases hcb : c.toNat < b.toNat
              · rw [if_pos hcb] at h2; cases h2
              · rw [if_neg hcb] at h2
                rw [if_neg (by omega), if_neg (by omega)]
                exact ih bs cs h1 h2

theorem charListLt_conn : ∀ xs ys : List Char,
    charListLt xs ys = false → charListLt ys xs = false → xs = ys := by
  intro xs
  induction xs with
  | nil =>
    intro ys h1 _
    cases ys with
    | nil => rfl
    | cons b bs => cases h1
  | cons a as ih =>
    intro ys h1 h2
    cases ys with
    | nil => cases h2
    | cons b bs =>
      rw [charListLt] at h1 h2
      by_cases hab : a.toNat < b.toNat
      · rw [if_pos hab] at h1; cases h1
      · by_cases hba : b.toNat < a.toNat
        · rw [if_pos hba] at h2; cases h2
        · rw [if_neg hab, if_neg hba] at h1
          rw [if_neg hba, if_neg hab] at h2
          have h3 : a.toNat = b.toNat := by omega
          have hc : a = b := Char.ext (UInt32.ext h3)
          rw [hc, ih bs h1 h2]

theorem strLt_asymm {s t : String} (h : strLt s t = true) : strLt t s = false :=
  charListLt_asymm _ _ h

theorem strLt_trans {s t u : String} (h1 : strLt s t = true) (h2 : strLt t u = true) :
    strLt s u = true :=
  charListLt_trans _ _ _ h1 h2

theorem strLt_conn {s t : String} (h1 : strLt s t = false) (h2 : strLt t s = false) : s = t := by
  have hd : s.toList = t.toList := charListLt_conn _ _ h1 h2
  cases s
  cases t
  exact congrArg String.mk (by simpa using hd)

theorem sortedInsert_perm (a : PyValue) :
    ∀ l : List PyValue, List.Perm (sortedInsert a l) (a :: l) := by
  intro l
  induction l with
  | nil => rfl
  | cons b bs ih =>
    rw [sortedInsert]
    by_cases hba : pyLt b a = true
    · rw [if_pos hba]
      exact (ih.cons b).trans (List.Perm.swap a b bs)
    · rw [if_neg hba]

theorem pySorted_perm : ∀ l : List PyValue, List.Perm (pySorted l) l := by
  intro l
  induction l with
  | nil => rfl
  | cons a as ih =>
    rw [pySorted]
    exact (sortedInsert_perm a (pySorted as)).trans (ih.cons a)

theorem sortedInsert_pairwise (a : PyValue) :
    ∀ l : List PyValue,
    (∀ x, x ∈ a :: l → ∀ y, y ∈ a :: l → pyLt x y = true → pyLt y x = false) →
    (∀ x, x ∈ a :: l → ∀ y, y ∈ a :: l → ∀ z, z ∈ a :: l →
        pyLt y x = false → pyLt z y = false → pyLt z x = false) →
    l.Pairwise (fun x y => pyLt y x = false) →
    (sortedInsert a l).Pairwise (fun x y => pyLt y x = false) := by
  intro l
  induction l with
  | nil => intro _ _ _; simp [sortedInsert]
  | cons b bs ih =>
    intro hasym hnt hp
    rw [List.pairwise_cons] at hp
    obtain ⟨hb, hbs⟩ := hp
    have hlift : ∀ x, x ∈ a :: bs → x ∈ a :: b :: bs := by
      intro x hx
      rcases List.mem_cons.mp hx with rfl | h
      · exact List.mem_cons_self _ _
      · exact List.mem_cons_of_mem a (List.mem_cons_of_mem b h)
    rw [sortedInsert]
    by_cases hba : pyLt b a = true
    · rw [if_pos hba]
      rw [List.pairwise_cons]
      refine ⟨?_, ?_⟩
      · intro y hy
        have hy2 : y = a ∨ y ∈ bs := by
          have hmem := (sortedInsert_perm a bs).mem_iff.mp hy
          simpa using hmem
        rcases hy2 with hy2 | h
        · rw [hy2]
          exact hasym b (List.mem_cons_of_mem a (List.mem_cons_self b bs)) a
            (List.mem_cons_self _ _) hba
        · exact hb y h
      · exact ih
          (fun x hx y hy h => hasym x (hlift x hx) y (hlift y hy) h)
          (fun x hx y hy z hz h1 h2 => hnt x (hlift x hx) y (hlift y hy) z (hlift z hz) h1 h2)
          hbs
    · rw [if_neg hba]
      have hba' : pyLt b a = false := by
        cases hv : pyLt b a with
        | false => rfl
        | true => exact absurd hv hba
      rw [List.pairwise_cons]
      refine ⟨?_, List.Pairwise.cons hb hbs⟩
      intro y hy
      rcases List.mem_cons.mp hy with hy2 | h
      · rw [hy2]
        exact hba'
      · exact hnt a (List.mem_cons_self _ _)
          b (List.mem_cons_of_mem a (List.mem_cons_self b bs))
          y (List.mem_cons_of_mem a (List.mem_cons_of_mem b h)) hba' (hb y h)

theorem pySorted_pairwise : ∀ l : List PyValue,
    (∀ x, x ∈ l → ∀ y, y ∈ l → pyLt x y = true → pyLt y x = false) →
    (∀ x, x ∈ l → ∀ y, y ∈ l → ∀ z, z ∈ l →
        pyLt y x = false → pyLt z y = false → pyLt z x = false) →
    (pySorted l).Pairwise (fun x y => pyLt y x = false) := by
  intro l
  induction l with
  | nil => intro _ _; simp [pySorted]
  | cons a as ih =>
    intro hasym hnt
    have hlift : ∀ x, x ∈ a :: pySorted as → x ∈ a :: as := by
      intro x hx
      rcases List.mem_cons.mp hx with rfl | h
      · exact List.mem_cons_self _ _
      · exact List.mem_cons_of_mem a ((pySorted_perm as).mem_iff.mp h)
    have hliftas : ∀ x, x ∈ as → x ∈ a :: as := fun x hx => List.mem_cons_of_mem a hx
    rw [pySorted]
    exact sortedInsert_pairwise a (pySorted as)
      (fun x hx y hy h => hasym x (hlift x hx) y (hlift y hy) h)
      (fun x hx y hy z hz h1 h2 => hnt x (hlift x hx) y (hlift y hy) z (hlift z hz) h1 h2)
      (ih (fun x hx y hy h => hasym x (hliftas x hx) y (hliftas y hy) h)
          (fun x hx y hy z hz h1 h2 => hnt x (hliftas x hx) y (hliftas y hy) z (hliftas z hz) h1 h2))

theorem sorted_perm_unique : ∀ (l₁ l₂ : List PyValue), List.Perm l₁ l₂ →
    l₁.Pairwise (fun x y => pyLt y x = false) →
    l₂.Pairwise (fun x y => pyLt y x = false) →
    (∀ x, x ∈ l₁ → ∀ y, y ∈ l₁ → pyLt x y = false → pyLt y x = false → x = y) →
    l₁ = l₂ := by
  intro l₁
  induction l₁ with
  | nil =>
    intro l₂ hp _ _ _
    exact (List.Perm.eq_nil hp.symm).symm
  | cons a as ih =>
    intro l₂ hp h1 h2 hconn
    cases l₂ with
    | nil => cases List.Perm.eq_nil hp
    | cons b bs =>
      rw [List.pairwise_cons] at h1 h2
      have hab : a = b := by
        by_cases heq : a = b
        · exact heq
        · exfalso
          have hain : a ∈ b :: bs := hp.mem_iff.mp (List.mem_cons_self a as)
          have hbin : b ∈ a :: as := hp.mem_iff.mpr (List.mem_cons_self b bs)
          have ha2 : a ∈ bs := by
            rcases List.mem_cons.mp hain with h | h
            · exact absurd h heq
            · exact h
          have hb2 : b ∈ as := by
            rcases List.mem_cons.mp hbin with h | h
            · exact absurd h.symm heq
            · exact h
          have hlba : pyLt b a = false := h1.1 b hb2
          have hlab : pyLt a b = false := h2.1 a ha2
          exact heq (hconn a (List.mem_cons_self a as) b (List.mem_cons_of_mem a hb2) hlab hlba)
      subst hab
      have has : List.Perm as bs := hp.cons_inv
      have htail := ih bs has h1.2 h2.2
        (fun x hx y hy hxy hyx =>
          hconn x (List.mem_cons_of_mem a hx) y (List.mem_cons_of_mem a hy) hxy hyx)
      rw [htail]

theorem pyLt_str_str (s t : String) : pyLt (.str s) (.str t) = strLt s t := rfl

theorem ten_zpow_toNat (e1 e2 : Int) (h : e2 ≤ e1) :
    ((10 : Rat) ^ ((e1 - e2).toNat) : Rat) = (10 : Rat) ^ (e1 - e2) := by
  rw [← zpow_natCast]
  congr 1
  omega

theorem decPairLt_iff (p q : Int × Int) :
    decPairLt p q = true ↔ pairValQ p < pairValQ q := by
  obtain ⟨m1, e1⟩ := p
  obtain ⟨m2, e2⟩ := q
  unfold decPairLt pairValQ
  simp only [ge_iff_le]
  have hten : (10 : Rat) ≠ 0 := by norm_num
  by_cases h : e2 ≤ e1
  · rw [if_pos h, decide_eq_true_eq]
    have hcast : m1 * 10 ^ (e1 - e2).toNat < m2 ↔
        (m1 : Rat) * (10 : Rat) ^ ((e1 - e2).toNat) < (m2 : Rat) := by
      constructor
      · intro h2; exact_mod_cast h2
      · intro h2; exact_mod_cast h2
    rw [hcast, ten_zpow_toNat e1 e2 h]
    rw [show (m1 : Rat) * (10 : Rat) ^ e1 = ((m1 : Rat) * 10 ^ (e1 - e2)) * 10 ^ e2 by
      rw [mul_assoc, ← zpow_add₀ hten]
      congr 2
      omega]
    exact (mul_lt_mul_right (zpow_pos (by norm_num) _)).symm
  · rw [if_neg h, decide_eq_true_eq]
    have h2 : e1 ≤ e2 := by omega
    have hcast : m1 < m2 * 10 ^ (e2 - e1).toNat ↔
        (m1 : Rat) < (m2 : Rat) * (10 : Rat) ^ ((e2 - e1).toNat) := by
      constructor
      · intro h3; exact_mod_cast h3
      · intro h3; exact_mod_cast h3
    rw [hcast, ten_zpow_toNat e2 e1 h2]
    rw [show (m2 : Rat) * (10 : Rat) ^ e2 = ((m2 : Rat) * 10 ^ (e2 - e1)) * 10 ^ e1 by
      rw [mul_assoc, ← zpow_add₀ hten]
      congr 2
      omega]
    exact (mul_lt_mul_right (zpow_pos (by norm_num) _)).symm

theorem strLt_negtrans {s t u : String} (h1 : strLt t s = false) (h2 : strLt u t = false) :
    strLt u s = false := by
  cases hv : strLt u s with
  | false => rfl
  | true =>
    exfalso
    by_cases hst : strLt s t = true
    · exact absurd (strLt_trans hv hst) (by simp [h2])
    · have hst2 : strLt s t = false := by
        cases hw : strLt s t with
        | false => rfl
        | true => exact absurd hw hst
      have heq : s = t := strLt_conn hst2 h1
      rw [heq] at hv
      exact absurd hv (by simp [h2])

theorem decPairLt_asymm (p q : Int × Int) (h : decPairLt p q = true) :
    decPairLt q p = false := by
  cases hv : decPairLt q p with
  | false => rfl
  | true =>
    exact absurd (lt_trans ((decPairLt_iff p q).mp h) ((decPairLt_iff q p).mp hv))
      (lt_irrefl _)

theorem decPairLt_negtrans (x y z : Int × Int) (h1 : decPairLt y x = false)
    (h2 : decPairLt z y = false) : decPairLt z x = false := by
  cases hv : decPairLt z x with
  | false => rfl
  | true =>
    exfalso
    have hzx := (decPairLt_iff z x).mp hv
    have hyx : ¬ pairValQ y < pairValQ x := fun hc =>
      absurd ((decPairLt_iff y x).mpr hc) (by simp [h1])
    have hzy : ¬ pairValQ z < pairValQ y := fun hc =>
      absurd ((decPairLt_iff z y).mpr hc) (by simp [h2])
    exact hzy (lt_of_lt_of_le hzx (le_of_not_lt hyx))

theorem pyLt_num_num {a b : PyValue} {p q : Int × Int}
    (ha : pyNumVal a = some p) (hb : pyNumVal b = some q) :
    pyLt a b = decPairLt p q := by
  unfold pyLt
  rw [ha, hb]

theorem pyLt_num_str {a : PyValue} {p : Int × Int} (ha : pyNumVal a = some p) (t : String) :
    pyLt a (PyValue.str t) = true := by
  cases a with
  | int n => rfl
  | bool b => rfl
  | float r => rfl
  | str s => cases (show (Option.none : Option (Int × Int)) = some p from ha)
  | dict es => cases (show (Option.none : Option (Int × Int)) = some p from ha)
  | list xs => cases (show (Option.none : Option (Int × Int)) = some p from ha)
  | set xs => cases (show (Option.none : Option (Int × Int)) = some p from ha)
  | none => cases (show (Option.none : Option (Int × Int)) = some p from ha)
  | other k => cases (show (Option.none : Option (Int × Int)) = some p from ha)

theorem pyLt_str_num {a : PyValue} {p : Int × Int} (ha : pyNumVal a = some p) (s : String) :
    pyLt (PyValue.str s) a = false := by
  cases a with
  | int n => rfl
  | bool b => rfl
  | float r => rfl
  | str t => cases (show (Option.none : Option (Int × Int)) = some p from ha)
  | dict es => cases (show (Option.none : Option (Int × Int)) = some p from ha)
  | list xs => cases (show (Option.none : Option (Int × Int)) = some p from ha)
  | set xs => cases (show (Option.none : Option (Int × Int)) = some p from ha)
  | none => cases (show (Option.none : Option (Int × Int)) = some p from ha)
  | other k => cases (show (Option.none : Option (Int × Int)) = some p from ha)

theorem isScalar_cases {v : PyValue} (h : isScalar v = true) :
    (∃ p, pyNumVal v = some p) ∨ (∃ s, v = PyValue.str s) := by
  cases v with
  | str s => exact Or.inr ⟨s, rfl⟩
  | int n => exact Or.inl ⟨(n, 0), rfl⟩
  | bool b => exact Or.inl ⟨((if b then 1 else 0), 0), rfl⟩
  | float r => exact Or.inl ⟨decLitVal r, rfl⟩
  | dict es => exact Bool.noConfusion (show false = true from h)
  | list xs => exact Bool.noConfusion (show false = true from h)
  | set xs => exact Bool.noConfusion (show false = true from h)
  | none => exact Bool.noConfusion (show false = true from h)
  | other k => exact Bool.noConfusion (show false = true from h)

/-- On a list of scalar values, `pyLt` restricted to its members is
asymmetric and negatively transitive: the facts the sortedness lemmas
need.  (Numbers compare by value through `decPairLt_iff`; text compares
lexicographically; numbers sort before text.) -/
theorem scalarDomain_props (xs : List PyValue)
    (hs : ∀ x, x ∈ xs → isScalar x = true) :
    (∀ x, x ∈ xs → ∀ y, y ∈ xs → pyLt x y = true → pyLt y x = false) ∧
    (∀ x, x ∈ xs → ∀ y, y ∈ xs → ∀ z, z ∈ xs →
        pyLt y x = false → pyLt z y = false → pyLt z x = false) := by
  constructor
  · intro x hx y hy h
    rcases isScalar_cases (hs x hx) with ⟨p, hp⟩ | ⟨s, hsx⟩
    · rcases isScalar_cases (hs y hy) with ⟨q, hq⟩ | ⟨t, hty⟩
      · rw [pyLt_num_num hp hq] at h
        rw [pyLt_num_num hq hp]
        exact decPairLt_asymm _ _ h
      · rw [hty]
        exact pyLt_str_num hp t
    · rcases isScalar_cases (hs y hy) with ⟨q, hq⟩ | ⟨t, hty⟩
      · rw [hsx, pyLt_str_num hq s] at h
        cases h
      · rw [hsx, hty] at h ⊢
        rw [pyLt_str_str] at h ⊢
        exact strLt_asymm h
  · intro x hx y hy z hz h1 h2
    rcases isScalar_cases (hs x hx) with ⟨p, hp⟩ | ⟨s, hsx⟩
    · rcases isScalar_cases (hs z hz) with ⟨rr, hr⟩ | ⟨u, huz⟩
      · rcases isScalar_cases (hs y hy) with ⟨q, hq⟩ | ⟨t, hty⟩
        · rw [pyLt_num_num hq hp] at h1
          rw [pyLt_num_num hr hq] at h2
          rw [pyLt_num_num hr hp]
          exact decPairLt_negtrans p q rr h1 h2
        · rw [hty, pyLt_num_str hr t] at h2
          cases h2
      · rw [huz]
        exact pyLt_str_num hp u
    · rcases isScalar_cases (hs y hy) with ⟨q, hq⟩ | ⟨t, hty⟩
      · rw [hsx, pyLt_num_str hq s] at h1
        cases h1
      · rcases isScalar_cases (hs z hz) with ⟨rr, hr⟩ | ⟨u, huz⟩
        · rw [hty, pyLt_num_str hr t] at h2
          cases h2
        · rw [hsx, hty] at h1
          rw [hty, huz] at h2
          rw [hsx, huz]
          rw [pyLt_str_str] at h1 h2 ⊢
          exact strLt_negtrans h1 h2

theorem string_eq_empty_of_length_eq_zero {s : String} (h : s.length = 0) : s = "" := by
  cases s with
  | mk data =>
    simp only [String.length] at h
    have hd : data = [] := List.length_eq_zero.mp h
    simp [hd]

theorem mapSerializeEntry_ok (wrapped : PyValue → Except PyError PyValue)
    (kv : PyValue × PyValue) (k : String) (w : PyValue)
    (hk : kv.1 = PyValue.str k) (hw : wrapped kv.2 = .ok w) :
    mapSerializeEntry wrapped kv = .ok (kv.1, w) := by
  unfold mapSerializeEntry
  rw [hk]
  simp [hw, Except.map]

theorem mapDeserializeEntry_ok (deser : PyValue → Except PyError PyValue)
    (kw : PyValue × PyValue) (d : PyValue) (hd : deser kw.2 = .ok d) :
    mapDeserializeEntry deser kw = .ok (kw.1, d) := by
  unfold mapDeserializeEntry
  simp [hd, Except.map]

theorem mapEntries_roundtrip (ser deser : PyValue → Except PyError PyValue) :
    ∀ es : List (PyValue × PyValue),
    (∀ kv, kv ∈ es → (∃ k : String, kv.1 = PyValue.str k) ∧
        ∃ w, ser kv.2 = .ok w ∧ deser w = .ok kv.2) →
    ∃ l, mapSerializeBody ser (.dict es) = .ok (.dict l) ∧
         mapDeserializeBody deser (.dict l) = .ok (.dict es) := by
  intro es
  induction es with
  | nil => intro _; exact ⟨[], rfl, rfl⟩
  | cons kv rest ih =>
    intro h
    obtain ⟨⟨k, hk⟩, w, hw, hdw⟩ := h kv (List.mem_cons_self kv rest)
    obtain ⟨l, hl1, hl2⟩ := ih (fun x hx => h x (List.mem_cons_of_mem kv hx))
    have hl1' : listMapExcept (mapSerializeEntry ser) rest = .ok l := by
      have := hl1
      unfold mapSerializeBody at this
      obtain ⟨l', he, hdl⟩ := exceptMap_ok this
      cases hdl
      exact he
    have hl2' : listMapExcept (mapDeserializeEntry deser) l = .ok rest := by
      have := hl2
      unfold mapDeserializeBody at this
      obtain ⟨l', he, hdl⟩ := exceptMap_ok this
      cases hdl
      exact he
    refine ⟨(kv.1, w) :: l, ?_, ?_⟩
    · show (listMapExcept (mapSerializeEntry ser) (kv :: rest)).map PyValue.dict = _
      rw [listMapExcept_cons_ok _ _ _ _ (mapSerializeEntry_ok ser kv k w hk hw), hl1']
      rfl
    · show (listMapExcept (mapDeserializeEntry deser) ((kv.1, w) :: l)).map PyValue.dict = _
      have hkw : mapDeserializeEntry deser (kv.1, w) = .ok (kv.1, kv.2) :=
        mapDeserializeEntry_ok deser (kv.1, w) kv.2 hdw
      rw [listMapExcept_cons_ok _ _ _ _ hkw, hl2']
      rfl

theorem listItems_roundtrip (ser deser : PyValue → Except PyError PyValue) :
    ∀ xs : List PyValue,
    (∀ x, x ∈ xs → ∃ w, ser x = .ok w ∧ deser w = .ok x) →
    ∃ l, listSerializeBody ser (.list xs) = .ok (.list l) ∧
         listDeserializeBody deser (.list l) = .ok (.list xs) := by
  intro xs
  induction xs with
  | nil => intro _; exact ⟨[], rfl, rfl⟩
  | cons x rest ih =>
    intro h
    obtain ⟨w, hw, hdw⟩ := h x (List.mem_cons_self x rest)
    obtain ⟨l, hl1, hl2⟩ := ih (fun y hy => h y (List.mem_cons_of_mem x hy))
    have hl1' : listMapExcept ser rest = .ok l := by
      have := hl1
      unfold listSerializeBody at this
      obtain ⟨l', he, hdl⟩ := exceptMap_ok this
      cases hdl
      exact he
    have hl2' : listMapExcept deser l = .ok rest := by
      have := hl2
      unfold listDeserializeBody at this
      obtain ⟨l', he, hdl⟩ := exceptMap_ok this
      cases hdl
      exact he
    refine ⟨w :: l, ?_, ?_⟩
    · show (listMapExcept ser (x :: rest)).map PyValue.list = _
      rw [listMapExcept_cons_ok _ _ _ _ hw, hl1']
      rfl
    · show (listMapExcept deser (w :: l)).map PyValue.list = _
      rw [listMapExcept_cons_ok _ _ _ _ hdw, hl2']
      rfl

theorem parseNatDigits_none_of_nonDigit {cs : List Char} {c0 : Char}
    (hmem : c0 ∈ cs) (hnd : isDigitCh c0 = false) : parseNatDigits cs = Option.none := by
  unfold parseNatDigits
  rw [if_neg]
  intro hcond
  have hall := hcond.2
  have := List.all_eq_true.mp hall c0 hmem
  rw [hnd] at this
  cases this

theorem parseInt_of_floatLit {r : String} (h : isFloatLit r = true) : parseInt r = Option.none := by
  unfold isFloatLit at h
  simp only [Bool.and_eq_true, List.any_eq_true, Bool.or_eq_true, decide_eq_true_eq] at h
  obtain ⟨⟨_, _⟩, c0, hc0mem, hc0⟩ := h
  have hnd : isDigitCh c0 = false := by
    rcases hc0 with (h1 | h1) | h1 <;> rw [h1] <;> rfl
  have hnm : c0 ≠ '-' := by
    rcases hc0 with (h1 | h1) | h1 <;> rw [h1] <;> decide
  unfold parseInt
  cases hcs : r.toList with
  | nil => rfl
  | cons c rest =>
    rw [hcs] at hc0mem
    simp only [parseIntList]
    by_cases hc : c = '-'
    · rw [if_pos hc]
      have hc0rest : c0 ∈ rest := by
        rcases List.mem_cons.mp hc0mem with he | hm
        · rw [hc] at he
          exact absurd he hnm
        · exact hm
      rw [parseNatDigits_none_of_nonDigit hc0rest hnd]
      rfl
    · rw [if_neg hc]
      rw [parseNatDigits_none_of_nonDigit hc0mem hnd]
      rfl

theorem json_loads_floatLit {r : String} (h : isFloatLit r = true) :
    json_loads r = .ok (.float r) := by
  have hchars : ∀ c, c ∈ r.toList → (isDigitCh c || c = '-' || c = '+' || c = '.' ||
      c = 'e' || c = 'E') = true := by
    have h2 := h
    unfold isFloatLit at h2
    simp only [Bool.and_eq_true, List.all_eq_true] at h2
    exact fun c hc => h2.1.1.2 c hc
  have hn1 : r ≠ "true" := by
    intro he
    have := hchars 't' (by rw [he]; decide)
    cases this
  have hn2 : r ≠ "false" := by
    intro he
    have := hchars 'f' (by rw [he]; decide)
    cases this
  have hn3 : r ≠ "null" := by
    intro he
    have := hchars 'n' (by rw [he]; decide)
    cases this
  unfold json_loads
  rw [parseInt_of_floatLit h]
  rw [if_neg hn1, if_neg hn2, if_neg hn3, if_pos h]

theorem roundtrip_wrapped : ∀ (v : PyValue), Roundtrippable v → ∀ fs fd : Nat,
    sizeOf v ≤ fs → sizeOf v ≤ fd →
    ∃ w, serialize_wrapped fs v = .ok w ∧ get_python_type fd w = .ok v := by
  intro v h
  induction h with
  | str s hs =>
    intro fs fd hfs hfd
    have h1 := one_le_sizeOf (PyValue.str s)
    cases fs with
    | zero => omega
    | succ fs' =>
      cases fd with
      | zero => omega
      | succ fd' =>
        have hlen : ¬ s.length = 0 := fun hl => hs (string_eq_empty_of_length_eq_zero hl)
        refine ⟨PyValue.dict [(PyValue.str "S", PyValue.str s)], ?_, ?_⟩
        · rw [serialize_wrapped_eq]
          simp only [get_pynamo_type, serialize_nested_string, BaseUnicodeAttribute.serialize]
          rw [if_neg hlen]
          rfl
        · rfl
  | int n =>
    intro fs fd hfs hfd
    have h1 := one_le_sizeOf (PyValue.int n)
    cases fs with
    | zero => omega
    | succ fs' =>
      cases fd with
      | zero => omega
      | succ fd' =>
        refine ⟨PyValue.dict [(PyValue.str "N", PyValue.str (intRepr n))], ?_, ?_⟩
        · rw [serialize_wrapped_eq]
          rfl
        · rw [get_python_type_tag_N]
          show json_loads (intRepr n) = _
          rw [json_loads_intRepr]
  | float r hfl =>
    intro fs fd hfs hfd
    have h1 := one_le_sizeOf (PyValue.float r)
    cases fs with
    | zero => omega
    | succ fs' =>
      cases fd with
      | zero => omega
      | succ fd' =>
        refine ⟨PyValue.dict [(PyValue.str "N", PyValue.str r)], ?_, ?_⟩
        · rw [serialize_wrapped_eq]
          rfl
        · rw [get_python_type_tag_N]
          show json_loads r = _
          rw [json_loads_floatLit hfl]
  | dict es hkeys hvals ih =>
    intro fs fd hfs hfd
    have h1 := one_le_sizeOf (PyValue.dict es)
    cases fs with
    | zero => omega
    | succ fs' =>
      cases fd with
      | zero => omega
      | succ fd' =>
        obtain ⟨l, hl1, hl2⟩ := mapEntries_roundtrip (serialize_wrapped fs')
          (fun x => get_python_type fd' x) es (by
            intro kv hkv
            refine ⟨hkeys kv hkv, ?_⟩
            have hsz := sizeOf_snd_lt_dict hkv
            exact ih kv hkv fs' fd' (by omega) (by omega))
        refine ⟨PyValue.dict [(PyValue.str "M", PyValue.dict l)], ?_, ?_⟩
        · rw [serialize_wrapped_eq]
          simp only [get_pynamo_type, serialize_nested_map]
          show (match BaseMapAttribute.serialize fs' (PyValue.dict es) with
            | Except.error e => Except.error e
            | Except.ok s => Except.ok (wrapTag PynamoType.mapType s)) = _
          rw [show BaseMapAttribute.serialize fs' (PyValue.dict es) = .ok (.dict l) from hl1]
          rfl
        · rw [get_python_type_tag_M]
          exact hl2
  | list xs hmem ih =>
    intro fs fd hfs hfd
    have h1 := one_le_sizeOf (PyValue.list xs)
    cases fs with
    | zero => omega
    | succ fs' =>
      cases fd with
      | zero => omega
      | succ fd' =>
        obtain ⟨l, hl1, hl2⟩ := listItems_roundtrip (serialize_wrapped fs')
          (fun x => get_python_type fd' x) xs (by
            intro x hx
            have hsz := sizeOf_mem_lt_list hx
            exact ih x hx fs' fd' (by omega) (by omega))
        refine ⟨PyValue.dict [(PyValue.str "L", PyValue.list l)], ?_, ?_⟩
        · rw [serialize_wrapped_eq]
          simp only [get_pynamo_type, serialize_nested_list]
          show (match BaseListAttribute.serialize fs' (PyValue.list xs) with
            | Except.error e => Except.error e
            | Except.ok s => Except.ok (wrapTag PynamoType.listType s)) = _
          rw [show BaseListAttribute.serialize fs' (PyValue.list xs) = .ok (.list l) from hl1]
          rfl
        · rw [get_python_type_tag_L]
          exact hl2

/-- C1: for every native value built from non-empty text, numbers
(integers and floats), text-keyed mappings and lists (nested arbitrarily,
within the recursion limit), serialization through the dispatcher's
single-tag wrapper succeeds and `get_python_type` applied to that wrapper
recovers the original value. -/
theorem claim_C1_roundtrip (v : PyValue) (h : Roundtrippable v) (fs fd : Nat)
    (hfs : sizeOf v ≤ fs) (hfd : sizeOf v ≤ fd) :
    ∃ w, serialize_wrapped fs v = .ok w ∧ get_python_type fd w = .ok v :=
  roundtrip_wrapped v h fs fd hfs hfd

/-- Witness for C1 at the spec's own example value
`{"k1": "v1", "k2": [1, 2]}`. -/
theorem claim_C1_roundtrip_witness :
    ∃ w, serialize_wrapped 1000 (PyValue.dict [(PyValue.str "k1", PyValue.str "v1"),
        (PyValue.str "k2", PyValue.list [PyValue.int 1, PyValue.int 2])]) = .ok w ∧
      get_python_type 1000 w = .ok (PyValue.dict [(PyValue.str "k1", PyValue.str "v1"),
        (PyValue.str "k2", PyValue.list [PyValue.int 1, PyValue.int 2])]) := by
  have hr : Roundtrippable (PyValue.dict [(PyValue.str "k1", PyValue.str "v1"),
      (PyValue.str "k2", PyValue.list [PyValue.int 1, PyValue.int 2])]) := by
    apply Roundtrippable.dict
    · intro kv hkv
      fin_cases hkv
      · exact ⟨"k1", rfl⟩
      · exact ⟨"k2", rfl⟩
    · intro kv hkv
      fin_cases hkv
      · exact Roundtrippable.str "v1" (by decide)
      · apply Roundtrippable.list
        intro x hx
        fin_cases hx
        · exact Roundtrippable.int 1
        · exact Roundtrippable.int 2
  exact claim_C1_roundtrip _ hr 1000 1000 (by decide) (by decide)

theorem serialize_wrapped_ok_inv {fuel : Nat} {v w : PyValue}
    (h : serialize_wrapped fuel v = .ok w) :
    ∃ t s, get_pynamo_type v = .ok t ∧ serialize_nested fuel t v = .ok s ∧ w = wrapTag t s := by
  rw [serialize_wrapped_eq] at h
  revert h
  cases hgt : get_pynamo_type v with
  | error e => intro h; cases h
  | ok t =>
    intro h
    have h2 : (match serialize_nested fuel t v with
        | Except.error e => Except.error e
        | Except.ok s => Except.ok (wrapTag t s)) = Except.ok w := h
    clear h
    revert h2
    cases hsn : serialize_nested fuel t v with
    | error e => intro h2; cases h2
    | ok s =>
      intro h2
      cases h2
      exact ⟨t, s, rfl, hsn, rfl⟩

theorem mapSerializeEntry_ok_inv {wrapped : PyValue → Except PyError PyValue}
    {kv kw : PyValue × PyValue} (h : mapSerializeEntry wrapped kv = .ok kw) :
    kw.1 = kv.1 ∧ wrapped kv.2 = .ok kw.2 := by
  unfold mapSerializeEntry at h
  cases hk : kv.1 <;> rw [hk] at h <;> (try cases h)
  case str s =>
    obtain ⟨w', hw', hkw⟩ := exceptMap_ok h
    rw [hkw, ← hk]
    exact ⟨rfl, hw'⟩

theorem mapSerializeEntry_badKey {wrapped : PyValue → Except PyError PyValue}
    {kv : PyValue × PyValue} (h : kv.1.isStr = false) :
    mapSerializeEntry wrapped kv = .error (.typeError "Map keys must be strings.") := by
  unfold mapSerializeEntry
  cases hk : kv.1 <;> rw [hk] at h <;> first
    | rfl
    | exact absurd h (by simp [PyValue.isStr])

theorem forall₂_mem_right {α β : Type} {R : α → β → Prop} :
    ∀ {l₁ : List α} {l₂ : List β}, List.Forall₂ R l₁ l₂ → ∀ b, b ∈ l₂ → ∃ a, a ∈ l₁ ∧ R a b := by
  intro l₁ l₂ h
  induction h with
  | nil => intro b hb; cases hb
  | cons hab _ ih =>
    intro b hb
    rcases List.mem_cons.mp hb with hb2 | hb2
    · exact ⟨_, List.mem_cons_self _ _, hb2 ▸ hab⟩
    · obtain ⟨a, ha, hr⟩ := ih b hb2
      exact ⟨a, List.mem_cons_of_mem _ ha, hr⟩

/-- C2 counterexample: the dispatcher's `UnsupportedTypeError` carries one
fixed message, identical for every unsupported kind, so it cannot name the
encountered kind (here a `frozenset` and `None` produce the same error). -/
theorem claim_C2_counterexample :
    get_pynamo_type (PyValue.other "frozenset") =
      .error (.typeError "Trying to use a python type that is not supported. Only, string, int, float, dict and list are supported.") ∧
    get_pynamo_type PyValue.none = get_pynamo_type (PyValue.other "frozenset") :=
  ⟨rfl, rfl⟩

/-- C2 (amended): classification precedence of `get_pynamo_type`: text to the
Text codec; integers, floats and booleans (not special-cased, since Python
bools are ints) to the Number codec; dicts to the Map codec; lists to the
List codec; everything else fails with `UnsupportedTypeError` carrying a
fixed message that lists the supported kinds but does not name the
encountered kind. -/
theorem claim_C2_dispatch :
    (∀ s, get_pynamo_type (PyValue.str s) = .ok PynamoType.stringType) ∧
    (∀ n : Int, get_pynamo_type (PyValue.int n) = .ok PynamoType.numberType) ∧
    (∀ r, get_pynamo_type (PyValue.float r) = .ok PynamoType.numberType) ∧
    (∀ b, get_pynamo_type (PyValue.bool b) = .ok PynamoType.numberType) ∧
    (∀ es, get_pynamo_type (PyValue.dict es) = .ok PynamoType.mapType) ∧
    (∀ xs, get_pynamo_type (PyValue.list xs) = .ok PynamoType.listType) ∧
    (∀ xs, get_pynamo_type (PyValue.set xs) =
      .error (.typeError "Trying to use a python type that is not supported. Only, string, int, float, dict and list are supported.")) ∧
    (get_pynamo_type PyValue.none =
      .error (.typeError "Trying to use a python type that is not supported. Only, string, int, float, dict and list are supported.")) ∧
    (∀ k, get_pynamo_type (PyValue.other k) =
      .error (.typeError "Trying to use a python type that is not supported. Only, string, int, float, dict and list are supported.")) :=
  ⟨fun _ => rfl, fun _ => rfl, fun _ => rfl, fun _ => rfl, fun _ => rfl, fun _ => rfl,
   fun _ => rfl, rfl, fun _ => rfl⟩

/-- C3 counterexample: a wire value carrying two tags is not rejected; the
decoder reads `keys()[0]` and decodes the first tag. -/
theorem claim_C3_counterexample :
    get_python_type 2 (PyValue.dict [(PyValue.str "S", PyValue.str "v"),
      (PyValue.str "N", PyValue.str "1")]) = .ok (PyValue.str "v") := rfl

/-- C3 (amended): a wire value with zero tags fails with `IndexError` (from
`keys()[0]`), not a malformed-entry error; a wire value with two or more
tags is not rejected: decoding depends only on the first entry, the other
tags are ignored. -/
theorem claim_C3_first_tag :
    (∀ fuel : Nat, get_python_type (fuel+1) (PyValue.dict []) =
      .error (.indexError "list index out of range")) ∧
    (∀ fuel : Nat, ∀ e : PyValue × PyValue, ∀ rest : List (PyValue × PyValue),
      get_python_type fuel (PyValue.dict (e :: rest)) =
        get_python_type fuel (PyValue.dict [e])) := by
  refine ⟨fun _ => rfl, ?_⟩
  intro fuel e rest
  obtain ⟨k, p⟩ := e
  cases fuel with
  | zero => rfl
  | succ f => rfl

/-- C10: an empty text value inside a mapping is neither dropped nor
rejected: it serializes to a wrapper whose `S` tag maps to the absent marker
(`None`), and decoding that wrapper yields `None`, not the empty string. -/
theorem claim_C10_empty_string_payload (fuel : Nat) :
    BaseMapAttribute.serialize (fuel+1) (PyValue.dict [(PyValue.str "k", PyValue.str "")]) =
      .ok (PyValue.dict [(PyValue.str "k", PyValue.dict [(PyValue.str "S", PyValue.none)])]) ∧
    get_python_type (fuel+1) (PyValue.dict [(PyValue.str "S", PyValue.none)]) =
      .ok PyValue.none :=
  ⟨rfl, rfl⟩

/-- C8: serializing `None` or an empty set yields absent (`None`), not an
encoded empty collection; serializing absent or empty text yields absent,
never the empty string. -/
theorem claim_C8_absent :
    SetMixin.serialize PyValue.none = .ok PyValue.none ∧
    SetMixin.serialize (PyValue.set []) = .ok PyValue.none ∧
    BaseUnicodeAttribute.serialize PyValue.none = .ok PyValue.none ∧
    BaseUnicodeAttribute.serialize (PyValue.str "") = .ok PyValue.none :=
  ⟨rfl, rfl, rfl, rfl⟩

/-- C4 counterexample: the tag `BOOL` belongs to the fixed enumeration and
has a Type Tag Table entry, yet deserializing a wire value carrying it does
not reach a decoder: `get_python_type` fails with the unsupported-type
error.  So tags in the enumeration do not all resolve to a decoder. -/
theorem claim_C4_counterexample :
    "BOOL" ∈ tagEnumeration ∧
    ATTR_TYPE_MAP_lookup "BOOL" = some DynType.boolean ∧
    get_python_type 1 (PyValue.dict [(PyValue.str "BOOL", PyValue.bool true)]) =
      .error (.typeError "The given Dynamodb type is not supported. Type: BOOL") :=
  ⟨by simp [tagEnumeration], rfl, rfl⟩

/-- C4 (amended): the Type Tag Table lookup fails (a `KeyError`, the
unknown-tag failure) exactly for tags outside the fixed nine-tag
enumeration, and an unknown tag makes `get_python_type` fail with that
lookup error.  Of the tags in the enumeration only `S`, `N`, `M` and `L`
resolve to a decoder; `B`, `BOOL`, `SS`, `NS` and `BS` pass the lookup but
then fail with the unsupported-type error naming the tag. -/
theorem claim_C4_tag_lookup :
    (∀ t : String, ATTR_TYPE_MAP_lookup t = Option.none ↔ t ∉ tagEnumeration) ∧
    (∀ t : String, ∀ fuel : Nat, ∀ p : PyValue, ATTR_TYPE_MAP_lookup t = Option.none →
      get_python_type (fuel+1) (PyValue.dict [(PyValue.str t, p)]) =
        .error (.keyError (PyValue.str t))) ∧
    (∀ fuel : Nat, ∀ p : PyValue,
      get_python_type (fuel+1) (PyValue.dict [(PyValue.str "S", p)]) =
        BaseAttribute.deserialize p ∧
      get_python_type (fuel+1) (PyValue.dict [(PyValue.str "N", p)]) =
        BaseNumberAttribute.deserialize p ∧
      get_python_type (fuel+1) (PyValue.dict [(PyValue.str "M", p)]) =
        BaseMapAttribute.deserialize fuel p ∧
      get_python_type (fuel+1) (PyValue.dict [(PyValue.str "L", p)]) =
        BaseListAttribute.deserialize fuel p) ∧
    (∀ t : String, t ∈ ["B", "BOOL", "SS", "NS", "BS"] → ∀ fuel : Nat, ∀ p : PyValue,
      get_python_type (fuel+1) (PyValue.dict [(PyValue.str t, p)]) =
        .error (.typeError ("The given Dynamodb type is not supported. Type: " ++ t))) := by
  refine ⟨?_, ?_, ?_, ?_⟩
  · intro t
    unfold ATTR_TYPE_MAP_lookup
    constructor
    · intro h
      split at h <;> simp_all [tagEnumeration]
    · intro h
      simp [tagEnumeration] at h
      split <;> simp_all
  · intro t fuel p h
    show (match ATTR_TYPE_MAP_lookup t with
      | Option.none => (Except.error (PyError.keyError (PyValue.str t)) : Except PyError PyValue)
      | some dt =>
        match dt with
        | DynType.string => BaseAttribute.deserialize p
        | DynType.number => BaseNumberAttribute.deserialize p
        | DynType.map => mapDeserializeBody (fun x => get_python_type fuel x) p
        | DynType.list => listDeserializeBody (fun x => get_python_type fuel x) p
        | _ => Except.error (PyError.typeError ("The given Dynamodb type is not supported. Type: " ++ t))) = _
    rw [h]
  · intro fuel p
    exact ⟨rfl, rfl, rfl, rfl⟩
  · intro t ht fuel p
    fin_cases ht <;> rfl

/-- Witness for C4's amended theorem: the tag `X` is outside the enumeration
and fails the lookup, producing the `KeyError`. -/
theorem claim_C4_tag_lookup_witness :
    ATTR_TYPE_MAP_lookup "X" = Option.none ∧
    get_python_type 1 (PyValue.dict [(PyValue.str "X", PyValue.str "p")]) =
      .error (.keyError (PyValue.str "X")) :=
  ⟨rfl, claim_C4_tag_lookup.2.1 "X" 0 (PyValue.str "p") rfl⟩

theorem isStr_iff (v : PyValue) : v.isStr = true ↔ ∃ s, v = PyValue.str s := by
  cases v <;> simp [PyValue.isStr]

theorem mapSerialize_badKey (wrapped : PyValue → Except PyError PyValue) :
    ∀ es : List (PyValue × PyValue),
    (∀ kv, kv ∈ es → ∃ w, wrapped kv.2 = .ok w) →
    (∃ kv, kv ∈ es ∧ kv.1.isStr = false) →
    listMapExcept (mapSerializeEntry wrapped) es =
      .error (.typeError "Map keys must be strings.") := by
  intro es
  induction es with
  | nil =>
    intro _ hbad
    obtain ⟨kv, hkv, _⟩ := hbad
    cases hkv
  | cons kv rest ih =>
    intro hok hbad
    by_cases hk : kv.1.isStr = false
    · exact listMapExcept_cons_error _ _ _ _ (mapSerializeEntry_badKey hk)
    · have hk2 : kv.1.isStr = true := by
        cases hv : kv.1.isStr with
        | false => exact absurd hv hk
        | true => rfl
      obtain ⟨k, hkeq⟩ := (isStr_iff kv.1).mp hk2
      obtain ⟨w, hw⟩ := hok kv (List.mem_cons_self kv rest)
      rw [listMapExcept_cons_ok _ _ _ _ (mapSerializeEntry_ok wrapped kv k w hkeq hw)]
      have hbad2 : ∃ kv2, kv2 ∈ rest ∧ kv2.1.isStr = false := by
        obtain ⟨kv2, hkv2, hbadk⟩ := hbad
        rcases List.mem_cons.mp hkv2 with heq | hmem
        · rw [heq] at hbadk
          exact absurd hbadk hk
        · exact ⟨kv2, hmem, hbadk⟩
      rw [ih (fun x hx => hok x (List.mem_cons_of_mem _ hx)) hbad2]
      rfl

/-- C5: `BaseMapAttribute.serialize` fails with the map `TypeError` on
non-dict input; given a dict whose values all serialize, a non-text key
fails with the key `TypeError`; and when all keys are text and all values
serialize, every entry is emitted under its original key as the single-tag
wrapper of the dispatched value. -/
theorem claim_C5_map_serialize :
    (∀ fuel : Nat, ∀ v : PyValue, (∀ es, v ≠ PyValue.dict es) →
      BaseMapAttribute.serialize fuel v = .error (.typeError "Only map(dict) types can be serialized using this method. Use the other pynamodb types if a map is not being used.")) ∧
    (∀ fuel : Nat, ∀ es : List (PyValue × PyValue),
      (∀ kv, kv ∈ es → ∃ w, serialize_wrapped fuel kv.2 = .ok w) →
      (∃ kv, kv ∈ es ∧ kv.1.isStr = false) →
      BaseMapAttribute.serialize fuel (.dict es) =
        .error (.typeError "Map keys must be strings.")) ∧
    (∀ fuel : Nat, ∀ es : List (PyValue × PyValue),
      (∀ kv, kv ∈ es → kv.1.isStr = true ∧ ∃ w, serialize_wrapped fuel kv.2 = .ok w) →
      ∃ l, BaseMapAttribute.serialize fuel (.dict es) = .ok (.dict l) ∧
        List.Forall₂ (fun kv kw => kw.1 = kv.1 ∧
          ∃ t s, get_pynamo_type kv.2 = .ok t ∧ serialize_nested fuel t kv.2 = .ok s ∧
            kw.2 = wrapTag t s) es l) := by
  refine ⟨?_, ?_, ?_⟩
  · intro fuel v hv
    cases v with
    | dict es => exact absurd rfl (hv es)
    | str s => rfl
    | int n => rfl
    | bool b => rfl
    | float r => rfl
    | list xs => rfl
    | set xs => rfl
    | none => rfl
    | other k => rfl
  · intro fuel es hok hbad
    show (listMapExcept (mapSerializeEntry (serialize_wrapped fuel)) es).map PyValue.dict = _
    rw [mapSerialize_badKey _ es hok hbad]
    rfl
  · intro fuel es h
    have hok : ∀ kv, kv ∈ es → ∃ kw, mapSerializeEntry (serialize_wrapped fuel) kv = .ok kw := by
      intro kv hkv
      obtain ⟨hstr, w, hw⟩ := h kv hkv
      obtain ⟨k, hk⟩ := (isStr_iff kv.1).mp hstr
      exact ⟨(kv.1, w), mapSerializeEntry_ok _ kv k w hk hw⟩
    obtain ⟨l, hl, hall⟩ := listMapExcept_forall _ es hok
    refine ⟨l, ?_, ?_⟩
    · show (listMapExcept (mapSerializeEntry (serialize_wrapped fuel)) es).map PyValue.dict = _
      rw [hl]
      rfl
    · refine List.Forall₂.imp ?_ hall
      intro kv kw hkw
      obtain ⟨h1, h2⟩ := mapSerializeEntry_ok_inv hkw
      obtain ⟨t, s, hgt, hsn, hw⟩ := serialize_wrapped_ok_inv h2
      exact ⟨h1, t, s, hgt, hsn, hw⟩

/-- Witness for C5: a non-dict input and a dict with an integer key, both
rejected with the respective errors. -/
theorem claim_C5_map_serialize_witness :
    BaseMapAttribute.serialize 3 (PyValue.int 7) =
      .error (.typeError "Only map(dict) types can be serialized using this method. Use the other pynamodb types if a map is not being used.") ∧
    BaseMapAttribute.serialize 3 (PyValue.dict [(PyValue.int 1, PyValue.str "x")]) =
      .error (.typeError "Map keys must be strings.") := by
  constructor
  · exact claim_C5_map_serialize.1 3 (PyValue.int 7) (fun es h => PyValue.noConfusion h)
  · refine claim_C5_map_serialize.2.1 3 _ ?_ ⟨(PyValue.int 1, PyValue.str "x"), by simp, rfl⟩
    intro kv hkv
    fin_cases hkv
    exact ⟨PyValue.dict [(PyValue.str "S", PyValue.str "x")], rfl⟩

/-- C6: `BaseListAttribute.serialize` fails with the list `TypeError` on
non-list input; on a list whose elements all serialize it emits the
single-tag wrappers in exactly the input order, and list deserialization
decodes the items in exactly the input order (stated with `Forall₂`, which
relates the two lists position by position). -/
theorem claim_C6_list_order :
    (∀ fuel : Nat, ∀ v : PyValue, (∀ xs, v ≠ PyValue.list xs) →
      BaseListAttribute.serialize fuel v = .error (.typeError "Only list types can be serialized using this method. Use other pynamodb types if a list is not being used.")) ∧
    (∀ fuel : Nat, ∀ xs : List PyValue,
      (∀ x, x ∈ xs → ∃ w, serialize_wrapped fuel x = .ok w) →
      ∃ l, BaseListAttribute.serialize fuel (.list xs) = .ok (.list l) ∧
        List.Forall₂ (fun x w => serialize_wrapped fuel x = .ok w) xs l) ∧
    (∀ fuel : Nat, ∀ ws : List PyValue,
      (∀ w, w ∈ ws → ∃ d, get_python_type fuel w = .ok d) →
      ∃ ds, BaseListAttribute.deserialize fuel (.list ws) = .ok (.list ds) ∧
        List.Forall₂ (fun w d => get_python_type fuel w = .ok d) ws ds) := by
  refine ⟨?_, ?_, ?_⟩
  · intro fuel v hv
    cases v with
    | list xs => exact absurd rfl (hv xs)
    | str s => rfl
    | int n => rfl
    | bool b => rfl
    | float r => rfl
    | dict es => rfl
    | set xs => rfl
    | none => rfl
    | other k => rfl
  · intro fuel xs h
    obtain ⟨l, hl, hall⟩ := listMapExcept_forall (serialize_wrapped fuel) xs h
    refine ⟨l, ?_, hall⟩
    show (listMapExcept (serialize_wrapped fuel) xs).map PyValue.list = _
    rw [hl]
    rfl
  · intro fuel ws h
    obtain ⟨ds, hds, hall⟩ := listMapExcept_forall (fun x => get_python_type fuel x) ws h
    refine ⟨ds, ?_, hall⟩
    show (listMapExcept (fun x => get_python_type fuel x) ws).map PyValue.list = _
    rw [hds]
    rfl

/-- Witness for C6 at a concrete two-element list, checking the exact
serialized order, plus rejection of a non-list input. -/
theorem claim_C6_list_order_witness :
    (∃ l, BaseListAttribute.serialize 3 (PyValue.list [PyValue.str "a", PyValue.int 2]) =
        .ok (PyValue.list l) ∧
      List.Forall₂ (fun x w => serialize_wrapped 3 x = .ok w)
        [PyValue.str "a", PyValue.int 2] l) ∧
    BaseListAttribute.serialize 3 PyValue.none =
      .error (.typeError "Only list types can be serialized using this method. Use other pynamodb types if a list is not being used.") := by
  constructor
  · refine (claim_C6_list_order.2.1 3 [PyValue.str "a", PyValue.int 2] ?_)
    intro x hx
    fin_cases hx
    · exact ⟨PyValue.dict [(PyValue.str "S", PyValue.str "a")], rfl⟩
    · exact ⟨PyValue.dict [(PyValue.str "N", PyValue.str "2")], rfl⟩
  · exact claim_C6_list_order.1 3 PyValue.none (fun xs h => PyValue.noConfusion h)

/-- C7 counterexample: the text set with elements `a` and `b` does not
serialize to the sequence of the raw texts `a`, `b`: the elements pass
through `json.dumps`, so each carries JSON quotes on the wire. -/
theorem claim_C7_counterexample :
    SetMixin.serialize (PyValue.set [PyValue.str "a", PyValue.str "b"]) ≠
      .ok (PyValue.list [PyValue.str "a", PyValue.str "b"]) := by
  intro h
  have h0 : SetMixin.serialize (PyValue.set [PyValue.str "a", PyValue.str "b"]) =
      .ok (PyValue.list [PyValue.str "\"a\"", PyValue.str "\"b\""]) := rfl
  rw [h0] at h
  simp at h

theorem setSerialize_set (xs : List PyValue) (hne : xs ≠ []) :
    SetMixin.serialize (PyValue.set xs) =
      (listMapExcept json_dumps (pySorted xs)).map
        (fun ss => PyValue.list (ss.map PyValue.str)) := by
  have hlen : ¬ xs.length = 0 := fun h => hne (List.length_eq_zero.mp h)
  simp only [SetMixin.serialize, pyIterElems, Option.getD]
  rw [if_neg hlen]

/-- C7 (amended): serializing a non-empty set of scalar values (text,
integers, booleans or floats, in any mix) yields the `json.dumps` encodings
of the elements, as an ordered sequence sorted by the native comparison
(numeric across number kinds, lexicographic on text), and the result is
independent of the set's in-memory iteration order.  The separation
hypothesis `hsep` states that the native order distinguishes the set's
members pairwise; it holds for every genuine Python set, whose members are
pairwise distinct under `==` (numerically equal values such as `1`, `1.0`
and `True` collapse to one member before `sorted` ever runs). -/
theorem claim_C7_set_sorted (xs : List PyValue) (hne : xs ≠ [])
    (hsc : ∀ x, x ∈ xs → isScalar x = true)
    (hsep : ∀ x, x ∈ xs → ∀ y, y ∈ xs → x ≠ y → pyLt x y = true ∨ pyLt y x = true) :
    (∃ l ws, List.Perm l xs ∧ l.Pairwise (fun a b => pyLt b a = false) ∧
      List.Forall₂ (fun v w => json_dumps v = .ok w) l ws ∧
      SetMixin.serialize (PyValue.set xs) = .ok (PyValue.list (ws.map PyValue.str))) ∧
    (∀ ys, List.Perm ys xs →
      SetMixin.serialize (PyValue.set ys) = SetMixin.serialize (PyValue.set xs)) := by
  obtain ⟨hasym, hnt⟩ := scalarDomain_props xs hsc
  have hconn : ∀ x, x ∈ xs → ∀ y, y ∈ xs → pyLt x y = false → pyLt y x = false → x = y := by
    intro x hx y hy h1 h2
    by_cases hxy : x = y
    · exact hxy
    · rcases hsep x hx y hy hxy with h3 | h3
      · rw [h1] at h3
        cases h3
      · rw [h2] at h3
        cases h3
  constructor
  · have hperm := pySorted_perm xs
    have hpair := pySorted_pairwise xs hasym hnt
    have hd : ∀ x, x ∈ pySorted xs → ∃ w, json_dumps x = .ok w := by
      intro x hx
      have hx2 : x ∈ xs := hperm.mem_iff.mp hx
      have hx3 := hsc x hx2
      cases x with
      | str s => exact ⟨jsonQuote s, rfl⟩
      | int n => exact ⟨intRepr n, rfl⟩
      | bool b => exact ⟨(if b then "true" else "false"), rfl⟩
      | float r => exact ⟨r, rfl⟩
      | dict es => exact Bool.noConfusion (show false = true from hx3)
      | list items => exact Bool.noConfusion (show false = true from hx3)
      | set items => exact Bool.noConfusion (show false = true from hx3)
      | none => exact Bool.noConfusion (show false = true from hx3)
      | other k => exact Bool.noConfusion (show false = true from hx3)
    obtain ⟨ws, hws, hall⟩ := listMapExcept_forall json_dumps _ hd
    refine ⟨pySorted xs, ws, hperm, hpair, hall, ?_⟩
    rw [setSerialize_set xs hne, hws]
    rfl
  · intro ys hperm2
    have hne2 : ys ≠ [] := by
      intro h
      rw [h] at hperm2
      exact hne (List.Perm.eq_nil hperm2.symm)
    have hsc2 : ∀ x, x ∈ ys → isScalar x = true :=
      fun x hx => hsc x (hperm2.mem_iff.mp hx)
    obtain ⟨hasym2, hnt2⟩ := scalarDomain_props ys hsc2
    have hconn2 : ∀ x, x ∈ ys → ∀ y, y ∈ ys → pyLt x y = false → pyLt y x = false → x = y :=
      fun x hx y hy h1 h2 =>
        hconn x (hperm2.mem_iff.mp hx) y (hperm2.mem_iff.mp hy) h1 h2
    have hsorted_eq : pySorted ys = pySorted xs := by
      apply sorted_perm_unique (pySorted ys) (pySorted xs)
      · exact (pySorted_perm ys).trans (hperm2.trans (pySorted_perm xs).symm)
      · exact pySorted_pairwise ys hasym2 hnt2
      · exact pySorted_pairwise xs hasym hnt
      · intro x hx y hy h1 h2
        exact hconn2 x ((pySorted_perm ys).mem_iff.mp hx) y ((pySorted_perm ys).mem_iff.mp hy) h1 h2
    rw [setSerialize_set ys hne2, setSerialize_set xs hne, hsorted_eq]

/-- Witness for C7's amended theorem: a mixed scalar set (a float, an
integer and a text value) iterated in one order serializes sorted and
quoted, and agrees with the serialization of another iteration order. -/
theorem claim_C7_set_sorted_witness :
    (∃ l ws, List.Perm l [PyValue.float "2.5", PyValue.str "a", PyValue.int 1] ∧
      l.Pairwise (fun a b => pyLt b a = false) ∧
      List.Forall₂ (fun v w => json_dumps v = .ok w) l ws ∧
      SetMixin.serialize (PyValue.set [PyValue.float "2.5", PyValue.str "a", PyValue.int 1]) =
        .ok (PyValue.list (ws.map PyValue.str))) ∧
    SetMixin.serialize (PyValue.set [PyValue.str "a", PyValue.int 1, PyValue.float "2.5"]) =
      SetMixin.serialize (PyValue.set [PyValue.float "2.5", PyValue.str "a", PyValue.int 1]) := by
  have h := claim_C7_set_sorted [PyValue.float "2.5", PyValue.str "a", PyValue.int 1]
    (by simp)
    (by
      intro x hx
      fin_cases hx
      · rfl
      · rfl
      · rfl)
    (by
      intro x hx y hy hxy
      fin_cases hx <;> fin_cases hy
      · exact absurd rfl hxy
      · exact Or.inl rfl
      · exact Or.inr rfl
      · exact Or.inr rfl
      · exact absurd rfl hxy
      · exact Or.inr rfl
      · exact Or.inl rfl
      · exact Or.inl rfl
      · exact absurd rfl hxy)
  refine ⟨h.1, h.2 [PyValue.str "a", PyValue.int 1, PyValue.float "2.5"] ?_⟩
  have hp : [PyValue.str "a", PyValue.int 1, PyValue.float "2.5"] =
      [PyValue.str "a", PyValue.int 1] ++ [PyValue.float "2.5"] := rfl
  have hq : [PyValue.float "2.5", PyValue.str "a", PyValue.int 1] =
      [PyValue.float "2.5"] ++ [PyValue.str "a", PyValue.int 1] := rfl
  rw [hp, hq]
  exact List.perm_append_comm

theorem wrapped_good : ∀ fuel : Nat, ∀ v w : PyValue,
    serialize_wrapped fuel v = .ok w → GoodWrapper w := by
  intro fuel
  induction fuel with
  | zero =>
    intro v w h
    obtain ⟨t, s, hgt, hsn, rfl⟩ := serialize_wrapped_ok_inv h
    rw [show serialize_nested 0 t v = .error PyError.recursionError from rfl] at hsn
    cases hsn
  | succ f ih =>
    intro v w h
    obtain ⟨t, s, hgt, hsn, rfl⟩ := serialize_wrapped_ok_inv h
    cases v with
    | str s0 =>
      have hgt2 : (Except.ok PynamoType.stringType : Except PyError PynamoType) = .ok t := hgt
      cases hgt2
      rw [serialize_nested_string] at hsn
      have hsn2 : (if s0.length = 0 then (Except.ok PyValue.none : Except PyError PyValue)
          else .ok (.str s0)) = .ok s := hsn
      by_cases hl : s0.length = 0
      · rw [if_pos hl] at hsn2
        cases hsn2
        exact GoodWrapper.mk "S" PyValue.none (by simp [tagEnumeration]) GoodPayload.scalarNone
      · rw [if_neg hl] at hsn2
        cases hsn2
        exact GoodWrapper.mk "S" (PyValue.str s0) (by simp [tagEnumeration])
          (GoodPayload.scalarStr s0)
    | int n =>
      have hgt2 : (Except.ok PynamoType.numberType : Except PyError PynamoType) = .ok t := hgt
      cases hgt2
      have hsn2 : (Except.ok (PyValue.str (intRepr n)) : Except PyError PyValue) = .ok s := hsn
      cases hsn2
      exact GoodWrapper.mk "N" _ (by simp [tagEnumeration]) (GoodPayload.scalarStr _)
    | bool b =>
      have hgt2 : (Except.ok PynamoType.numberType : Except PyError PynamoType) = .ok t := hgt
      cases hgt2
      have hsn2 : (Except.ok (PyValue.str (if b then "true" else "false")) :
          Except PyError PyValue) = .ok s := hsn
      cases hsn2
      exact GoodWrapper.mk "N" _ (by simp [tagEnumeration]) (GoodPayload.scalarStr _)
    | float r =>
      have hgt2 : (Except.ok PynamoType.numberType : Except PyError PynamoType) = .ok t := hgt
      cases hgt2
      have hsn2 : (Except.ok (PyValue.str r) : Except PyError PyValue) = .ok s := hsn
      cases hsn2
      exact GoodWrapper.mk "N" _ (by simp [tagEnumeration]) (GoodPayload.scalarStr _)
    | dict es =>
      have hgt2 : (Except.ok PynamoType.mapType : Except PyError PynamoType) = .ok t := hgt
      cases hgt2
      rw [serialize_nested_map] at hsn
      have hsn2 : (listMapExcept (mapSerializeEntry (serialize_wrapped f)) es).map
          PyValue.dict = .ok s := hsn
      obtain ⟨l, hle, rfl⟩ := exceptMap_ok hsn2
      have hall := listMapExcept_ok_forall₂ _ hle
      refine GoodWrapper.mk "M" _ (by simp [tagEnumeration]) (GoodPayload.mapPayload l ?_)
      intro kw hkw
      obtain ⟨kv, _, hrel⟩ := forall₂_mem_right hall kw hkw
      obtain ⟨_, h2⟩ := mapSerializeEntry_ok_inv hrel
      exact ih kv.2 kw.2 h2
    | list xs =>
      have hgt2 : (Except.ok PynamoType.listType : Except PyError PynamoType) = .ok t := hgt
      cases hgt2
      rw [serialize_nested_list] at hsn
      have hsn2 : (listMapExcept (serialize_wrapped f) xs).map PyValue.list = .ok s := hsn
      obtain ⟨l, hle, rfl⟩ := exceptMap_ok hsn2
      have hall := listMapExcept_ok_forall₂ _ hle
      refine GoodWrapper.mk "L" _ (by simp [tagEnumeration]) (GoodPayload.listPayload l ?_)
      intro x hx
      obtain ⟨x0, _, hrel⟩ := forall₂_mem_right hall x hx
      exact ih x0 x hrel
    | set xs =>
      cases (show (Except.error (PyError.typeError "Trying to use a python type that is not supported. Only, string, int, float, dict and list are supported.") : Except PyError PynamoType) = .ok t from hgt)
    | none =>
      cases (show (Except.error (PyError.typeError "Trying to use a python type that is not supported. Only, string, int, float, dict and list are supported.") : Except PyError PynamoType) = .ok t from hgt)
    | other k =>
      cases (show (Except.error (PyError.typeError "Trying to use a python type that is not supported. Only, string, int, float, dict and list are supported.") : Except PyError PynamoType) = .ok t from hgt)

/-- C9: every wire wrapper emitted by map serialization or list
serialization is a single-key structure whose sole key belongs to the fixed
tag enumeration, recursively at every nesting depth (the `GoodWrapper`
invariant). -/
theorem claim_C9_single_tag :
    (∀ fuel : Nat, ∀ v : PyValue, ∀ l : List (PyValue × PyValue),
      BaseMapAttribute.serialize fuel v = .ok (PyValue.dict l) →
      ∀ kv, kv ∈ l → GoodWrapper kv.2) ∧
    (∀ fuel : Nat, ∀ v : PyValue, ∀ l : List PyValue,
      BaseListAttribute.serialize fuel v = .ok (PyValue.list l) →
      ∀ x, x ∈ l → GoodWrapper x) := by
  constructor
  · intro fuel v l h kv hkv
    cases v with
    | dict es =>
      have h2 : (listMapExcept (mapSerializeEntry (serialize_wrapped fuel)) es).map
          PyValue.dict = .ok (PyValue.dict l) := h
      obtain ⟨l2, hle, heq⟩ := exceptMap_ok h2
      have hl : l = l2 := by
        cases heq
        rfl
      subst hl
      have hall := listMapExcept_ok_forall₂ _ hle
      obtain ⟨kv0, _, hrel⟩ := forall₂_mem_right hall kv hkv
      obtain ⟨_, hw⟩ := mapSerializeEntry_ok_inv hrel
      exact wrapped_good fuel kv0.2 kv.2 hw
    | str s => cases h
    | int n => cases h
    | bool b => cases h
    | float r => cases h
    | list xs => cases h
    | set xs => cases h
    | none => cases h
    | other k => cases h
  · intro fuel v l h x hx
    cases v with
    | list xs =>
      have h2 : (listMapExcept (serialize_wrapped fuel) xs).map PyValue.list =
          .ok (PyValue.list l) := h
      obtain ⟨l2, hle, heq⟩ := exceptMap_ok h2
      have hl : l = l2 := by
        cases heq
        rfl
      subst hl
      have hall := listMapExcept_ok_forall₂ _ hle
      obtain ⟨x0, _, hrel⟩ := forall₂_mem_right hall x hx
      exact wrapped_good fuel x0 x hrel
    | str s => cases h
    | int n => cases h
    | bool b => cases h
    | float r => cases h
    | dict es => cases h
    | set xs => cases h
    | none => cases h
    | other k => cases h

/-- Witness for C9: a wrapper taken from a concrete serialized map is a
well-formed single-tag wrapper. -/
theorem claim_C9_single_tag_witness :
    GoodWrapper (PyValue.dict [(PyValue.str "S", PyValue.str "v")]) := by
  have h := claim_C9_single_tag.1 3
    (PyValue.dict [(PyValue.str "k", PyValue.str "v"), (PyValue.str "b", PyValue.bool true)])
    [(PyValue.str "k", PyValue.dict [(PyValue.str "S", PyValue.str "v")]),
     (PyValue.str "b", PyValue.dict [(PyValue.str "N", PyValue.str "true")])] rfl
  exact h (PyValue.str "k", PyValue.dict [(PyValue.str "S", PyValue.str "v")]) (by simp)
